import Mathlib

/-!
# Wallet API state guard (`src/wallet/api/wallet.h`)

A shallow embedding of `Wallet::LockedWallet` and of the members of
`Wallet::WalletImpl` whose bodies are given in the header, over an explicit
model of `std::recursive_timed_mutex` and `std::unique_lock`. The members the
header only declares (`refresh`, `balance`, `createTransaction`,
`disposeTransaction`, `importKeyImages`, the proof functions) are modelled
from the specification in a part of their own.

Conventions.
* A thread is a natural number; every operation takes the calling thread.
* All mutexes live in a store indexed by their address.
* A call either returns, waits (the mutex is owned by another thread), throws
  `std::system_error`, or has undefined behaviour; see `Outcome`.
* The number of levels of ownership of a recursive mutex is not bounded (the
  C++ standard leaves the maximum unspecified).

The enumeration `contract::contract_type` of
`src/cryptonote_core/beldex_contract.h` is embedded first, in its own
namespace.
-/

namespace contract

/-- A value of `enum struct contract_type : uint16_t`, by its value in the
underlying type `uint16_t`: a natural number below `2 ^ 16`. -/
abbrev contract_type := Nat

/-- Whether a natural number is a value of the underlying type `uint16_t`. -/
def contract_type.fits (v : Nat) : Bool := decide (v < 2 ^ 16)

/-- The enumerator `create = 0`. -/
def contract_type.create : contract_type := 0

/-- The enumerator `public_method`: it has no initializer, so its value is the
value of the previous enumerator plus one. -/
def contract_type.public_method : contract_type := contract_type.create + 1

/-- The enumerator `signed_method`: the previous enumerator plus one. -/
def contract_type.signed_method : contract_type := contract_type.public_method + 1

/-- The enumerator `terminate`: the previous enumerator plus one. -/
def contract_type.terminate : contract_type := contract_type.signed_method + 1

/-- The sentinel `_count`, declared last: the previous enumerator plus one. -/
def contract_type._count : contract_type := contract_type.terminate + 1

/-- The real contract types: the enumerators declared before the sentinel
`_count`, in the order of the declaration. -/
def contract_type.enumerators : List contract_type :=
  [contract_type.create, contract_type.public_method, contract_type.signed_method,
    contract_type.terminate]

end contract

namespace Wallet

/-- Identity of a thread of execution. -/
abbrev ThreadId := Nat

/-- Address of a mutex object. -/
abbrev MutexId := Nat

/-- Address of a heap object (a `tools::wallet2` instance). -/
abbrev Addr := Nat

/-- Error conditions of `std::unique_lock::lock`, plus undefined behaviour. -/
inductive Fault where
  /-- The error `operation_not_permitted`: the lock has no associated mutex. -/
  | operation_not_permitted
  /-- The error `resource_deadlock_would_occur`: the lock already owns its mutex. -/
  | resource_deadlock_would_occur
  /-- A precondition of the C++ standard library or of the language is violated. -/
  | undefined_behaviour
deriving DecidableEq, Repr

/-- Result of running an operation in a given state on behalf of a thread. -/
inductive Outcome (α : Type) where
  /-- The call returns normally. -/
  | done (a : α)
  /-- The call cannot return yet: it waits for a mutex owned by another thread. -/
  | blocked
  /-- The call throws, or is undefined. -/
  | raised (e : Fault)
deriving DecidableEq, Repr

/-- Sequencing of operations: the first outcome that is not `done` is the outcome. -/
def Outcome.bind {α β : Type} (x : Outcome α) (f : α → Outcome β) : Outcome β :=
  match x with
  | .done a => f a
  | .blocked => .blocked
  | .raised e => .raised e

/-- State of a `std::recursive_timed_mutex`: either no thread owns it, or a
thread owns it at `extra + 1` levels of ownership. -/
inductive RecursiveTimedMutex where
  | unlocked
  | locked (owner : ThreadId) (extra : Nat)
deriving DecidableEq, Repr

/-- The thread that owns the mutex, if any. -/
def RecursiveTimedMutex.owner : RecursiveTimedMutex → Option ThreadId
  | .unlocked => none
  | .locked o _ => some o

/-- The number of levels of ownership (the hold count). -/
def RecursiveTimedMutex.count : RecursiveTimedMutex → Nat
  | .unlocked => 0
  | .locked _ e => e + 1

/-- The call `m.lock()` by thread `t`: acquires a free mutex, adds a level when
`t` already owns it, and waits when another thread owns it. -/
def RecursiveTimedMutex.lock (m : RecursiveTimedMutex) (t : ThreadId) :
    Outcome RecursiveTimedMutex :=
  match m with
  | .unlocked => .done (.locked t 0)
  | .locked o e => if o = t then .done (.locked o (e + 1)) else .blocked

/-- The call `m.try_lock()` by thread `t`: as `lock`, but returns `false`
instead of waiting. -/
def RecursiveTimedMutex.try_lock (m : RecursiveTimedMutex) (t : ThreadId) :
    RecursiveTimedMutex × Bool :=
  match m with
  | .unlocked => (.locked t 0, true)
  | .locked o e => if o = t then (.locked o (e + 1), true) else (.locked o e, false)

/-- The call `m.unlock()` by thread `t`: removes one level of ownership; the
calling thread must own the mutex. -/
def RecursiveTimedMutex.unlock (m : RecursiveTimedMutex) (t : ThreadId) :
    Outcome RecursiveTimedMutex :=
  match m with
  | .unlocked => .raised .undefined_behaviour
  | .locked o e =>
    if o = t then
      match e with
      | 0 => .done .unlocked
      | e' + 1 => .done (.locked o e')
    else .raised .undefined_behaviour

/-- The mutexes of the process, by address. -/
abbrev Mutexes := MutexId → RecursiveTimedMutex

/-- A `std::unique_lock<std::recursive_timed_mutex>`: the associated mutex
(`mutex()`, possibly null) and the ownership flag (`owns_lock()`). -/
structure UniqueLock where
  pm : Option MutexId
  owns : Bool
deriving DecidableEq, Repr

/-- The constructor `unique_lock(m)`: locks `m` and owns it. -/
def UniqueLock.ofMutex (s : Mutexes) (t : ThreadId) (m : MutexId) :
    Outcome (Mutexes × UniqueLock) :=
  ((s m).lock t).bind fun m' => .done (Function.update s m m', ⟨some m, true⟩)

/-- The constructor `unique_lock(m, std::defer_lock)`: associated, not owning. -/
def UniqueLock.deferred (m : MutexId) : UniqueLock := ⟨some m, false⟩

/-- The constructor `unique_lock(m, std::try_to_lock)`: owns `m` exactly when
`m.try_lock()` succeeded. -/
def UniqueLock.tryToLock (s : Mutexes) (t : ThreadId) (m : MutexId) :
    Mutexes × UniqueLock :=
  (Function.update s m ((s m).try_lock t).1, ⟨some m, ((s m).try_lock t).2⟩)

/-- The move constructor `unique_lock(std::move(other))`: the new lock takes
the state of `other`; the second component is the state `other` is left in. -/
def UniqueLock.move (other : UniqueLock) : UniqueLock × UniqueLock :=
  (other, ⟨none, false⟩)

/-- The conversion `explicit operator bool`, equal to `owns_lock()`. -/
def UniqueLock.toBool (l : UniqueLock) : Bool := l.owns

/-- The call `l.lock()` by thread `t`. -/
def UniqueLock.lock (s : Mutexes) (t : ThreadId) (l : UniqueLock) :
    Outcome (Mutexes × UniqueLock) :=
  match l.pm with
  | none => .raised .operation_not_permitted
  | some m =>
    if l.owns then .raised .resource_deadlock_would_occur
    else ((s m).lock t).bind fun m' => .done (Function.update s m m', ⟨some m, true⟩)

/-- The destructor `~unique_lock()` run by thread `t`: unlocks the mutex when
the lock owns it. -/
def UniqueLock.destroy (s : Mutexes) (t : ThreadId) (l : UniqueLock) : Outcome Mutexes :=
  if l.owns then
    match l.pm with
    | none => .raised .undefined_behaviour
    | some m => ((s m).unlock t).bind fun m' => .done (Function.update s m m')
  else .done s

/-- A `std::unique_ptr<tools::wallet2>`, by the pointer `get()` returns
(`none` is the null pointer). -/
structure UniquePtr where
  get : Option Addr
deriving DecidableEq, Repr

/-- The wrapper `LockedWallet`: a lock on the refresh mutex and the
`tools::wallet2*` it gives access to. -/
structure LockedWallet where
  refresh_lock : UniqueLock
  wallet : Option Addr
deriving DecidableEq, Repr

/-- The constructor `LockedWallet(w, std::move(lock))`, run by thread `t`:
`refresh_lock{std::move(lock)}, wallet{w.get()}`, then
`if (!refresh_lock) refresh_lock.lock();`. -/
def LockedWallet.ofLock (s : Mutexes) (t : ThreadId) (w : UniquePtr) (lock : UniqueLock) :
    Outcome (Mutexes × LockedWallet) :=
  let refresh_lock := (UniqueLock.move lock).1
  let wallet := w.get
  if !refresh_lock.toBool then
    (refresh_lock.lock s t).bind fun r => .done (r.1, ⟨r.2, wallet⟩)
  else .done (s, ⟨refresh_lock, wallet⟩)

/-- The constructor `LockedWallet(w, refresh_mutex)`, run by thread `t`:
`refresh_lock{refresh_mutex}, wallet{w.get()}`. -/
def LockedWallet.ofMutex (s : Mutexes) (t : ThreadId) (w : UniquePtr) (refresh_mutex : MutexId) :
    Outcome (Mutexes × LockedWallet) :=
  (UniqueLock.ofMutex s t refresh_mutex).bind fun r => .done (r.1, ⟨r.2, w.get⟩)

/-- The member `operator->`: returns `wallet`. -/
def LockedWallet.arrow (h : LockedWallet) : Option Addr := h.wallet

/-- The implicit destructor of `LockedWallet`, run by thread `t` when the
handle goes out of scope: destroys `refresh_lock`. -/
def LockedWallet.destroy (s : Mutexes) (t : ThreadId) (h : LockedWallet) : Outcome Mutexes :=
  h.refresh_lock.destroy s t

/-- The data members of `WalletImpl` the header's inline bodies use. -/
structure WalletImpl where
  m_wallet_ptr : UniquePtr
  m_refreshMutex2 : MutexId
deriving DecidableEq, Repr

/-- The member `WalletImpl::wallet()`, run by thread `t`:
`return {m_wallet_ptr, m_refreshMutex2};`. -/
def WalletImpl.wallet (W : WalletImpl) (s : Mutexes) (t : ThreadId) :
    Outcome (Mutexes × LockedWallet) :=
  LockedWallet.ofMutex s t W.m_wallet_ptr W.m_refreshMutex2

/-- The member functions of `tools::wallet2` that the inline accessors of
`WalletImpl` call. The class is declared in `wallet/wallet2.h`, so the two
functions are parameters here; `W2` is the type of a `tools::wallet2` object. -/
structure Wallet2Api (W2 : Type) where
  get_refresh_from_block_height : W2 → Nat
  nettype : W2 → Nat

/-- The state of the process: the mutexes and the `tools::wallet2` objects on
the heap. -/
structure Process (W2 : Type) where
  mutexes : Mutexes
  heap : Addr → Option W2

/-- Dereferencing a `tools::wallet2*`: undefined for a null or dangling pointer. -/
def Process.deref {W2 : Type} (σ : Process W2) (p : Option Addr) : Outcome W2 :=
  match p with
  | none => .raised .undefined_behaviour
  | some a =>
    match σ.heap a with
    | none => .raised .undefined_behaviour
    | some w => .done w

/-- The member `WalletImpl::getRefreshFromBlockHeight()`, run by a thread:
`return m_wallet_ptr->get_refresh_from_block_height();`. -/
def WalletImpl.getRefreshFromBlockHeight {W2 : Type} (api : Wallet2Api W2) (W : WalletImpl)
    (σ : Process W2) (_ : ThreadId) : Outcome (Process W2 × Nat) :=
  (σ.deref W.m_wallet_ptr.get).bind fun w => .done (σ, api.get_refresh_from_block_height w)

/-- The member `WalletImpl::nettype()`, run by a thread:
`return static_cast<NetworkType>(m_wallet_ptr->nettype());`; the cast keeps
the numeric value of the enumerator. -/
def WalletImpl.nettype {W2 : Type} (api : Wallet2Api W2) (W : WalletImpl)
    (σ : Process W2) (_ : ThreadId) : Outcome (Process W2 × Nat) :=
  (σ.deref W.m_wallet_ptr.get).bind fun w => .done (σ, api.nettype w)

/-- A read of the `tools::wallet2` instance as the State Guard contract words
it: the caller obtains a handle from `wallet()`, applies the member function
`f` through `operator->`, and the handle goes out of scope on return. -/
def WalletImpl.readThroughGuard {W2 : Type} (f : W2 → Nat) (W : WalletImpl)
    (σ : Process W2) (t : ThreadId) : Outcome (Process W2 × Nat) :=
  (W.wallet σ.mutexes t).bind fun r =>
    (Process.deref ⟨r.1, σ.heap⟩ r.2.arrow).bind fun w =>
      (r.2.destroy r.1 t).bind fun s' => .done (⟨s', σ.heap⟩, f w)

/-- A `tools::wallet2` object reduced to the two values the accessors read. -/
structure SampleWallet2 where
  refresh_from_block_height : Nat
  nettype : Nat
deriving DecidableEq, Repr

/-- The accessors of `SampleWallet2`. -/
def sampleApi : Wallet2Api SampleWallet2 :=
  ⟨SampleWallet2.refresh_from_block_height, SampleWallet2.nettype⟩

/-- A process in which thread 1 (say the background refresh) owns mutex 7 and
a wallet object with refresh height 100 and network type 1 lives at address 64. -/
def refreshing : Process SampleWallet2 :=
  ⟨Function.update (fun _ => .unlocked) 7 (.locked 1 0),
   fun a => if a = 64 then some ⟨100, 1⟩ else none⟩

/-- A process with the same heap as `refreshing` and no mutex owned. -/
def idle : Process SampleWallet2 :=
  ⟨fun _ => .unlocked, fun a => if a = 64 then some ⟨100, 1⟩ else none⟩

/-- The number of levels at which thread `t` owns the mutex (zero when `t` is
not the owner). -/
def RecursiveTimedMutex.heldBy (m : RecursiveTimedMutex) (t : ThreadId) : Nat :=
  if m.owner = some t then m.count else 0

/-- Whether the lock owns the mutex at address `m`. -/
def UniqueLock.holds (l : UniqueLock) (m : MutexId) : Bool :=
  l.owns && l.pm == some m

/-- The threads of a process around one wallet object: the mutexes, and for
every thread the `unique_lock` objects and the `LockedWallet` handles that
are alive in its scopes. -/
structure System where
  mutexes : Mutexes
  locks : ThreadId → List UniqueLock
  handles : ThreadId → List LockedWallet

/-- The state at start: no mutex is owned, no lock object or handle exists. -/
def System.init : System := ⟨fun _ => .unlocked, fun _ => [], fun _ => []⟩

/-- The number of lock objects of thread `t`, inside handles or not, that own
the mutex at address `m`. -/
def System.owned (σ : System) (t : ThreadId) (m : MutexId) : Nat :=
  (σ.locks t).countP (fun l => l.holds m) +
    (σ.handles t).countP (fun h => h.refresh_lock.holds m)

/-- One action of one thread `t` on the lock objects of the wallet `W`:
* `wallet`: `t` calls `W.wallet()` and keeps the handle;
* `lockCtor`, `deferCtor`, `tryCtor`: `t` constructs a `unique_lock` on a mutex
  `m`, locking, deferred, or trying;
* `wrap`: `t` moves one of its `unique_lock` objects into the constructor
  `LockedWallet(w, std::move(lock))`; the moved-from object stays in scope;
* `dropLock`, `dropHandle`: one of the objects of `t` goes out of scope.
An action is taken only when its call returns. Lock objects and handles are
local to the thread that made them (`wallet()` is a private member and its
handle is a local of the calling function); they are not passed between
threads. -/
inductive Step (W : WalletImpl) : System → System → Prop where
  | wallet (σ : System) (t : ThreadId) (s' : Mutexes) (h : LockedWallet) :
      W.wallet σ.mutexes t = .done (s', h) →
      Step W σ ⟨s', σ.locks, Function.update σ.handles t (h :: σ.handles t)⟩
  | lockCtor (σ : System) (t : ThreadId) (m : MutexId) (s' : Mutexes) (l : UniqueLock) :
      UniqueLock.ofMutex σ.mutexes t m = .done (s', l) →
      Step W σ ⟨s', Function.update σ.locks t (l :: σ.locks t), σ.handles⟩
  | deferCtor (σ : System) (t : ThreadId) (m : MutexId) :
      Step W σ ⟨σ.mutexes, Function.update σ.locks t (UniqueLock.deferred m :: σ.locks t),
        σ.handles⟩
  | tryCtor (σ : System) (t : ThreadId) (m : MutexId) :
      Step W σ ⟨(UniqueLock.tryToLock σ.mutexes t m).1,
        Function.update σ.locks t ((UniqueLock.tryToLock σ.mutexes t m).2 :: σ.locks t),
        σ.handles⟩
  | wrap (σ : System) (t : ThreadId) (w : UniquePtr) (pre post : List UniqueLock)
      (l : UniqueLock) (s' : Mutexes) (h : LockedWallet) :
      σ.locks t = pre ++ l :: post →
      LockedWallet.ofLock σ.mutexes t w l = .done (s', h) →
      Step W σ ⟨s', Function.update σ.locks t (pre ++ (UniqueLock.move l).2 :: post),
        Function.update σ.handles t (h :: σ.handles t)⟩
  | dropLock (σ : System) (t : ThreadId) (pre post : List UniqueLock) (l : UniqueLock)
      (s' : Mutexes) :
      σ.locks t = pre ++ l :: post →
      l.destroy σ.mutexes t = .done s' →
      Step W σ ⟨s', Function.update σ.locks t (pre ++ post), σ.handles⟩
  | dropHandle (σ : System) (t : ThreadId) (pre post : List LockedWallet) (h : LockedWallet)
      (s' : Mutexes) :
      σ.handles t = pre ++ h :: post →
      h.destroy σ.mutexes t = .done s' →
      Step W σ ⟨s', σ.locks, Function.update σ.handles t (pre ++ post)⟩

/-- The states the threads can reach from the start. -/
inductive Reachable (W : WalletImpl) : System → Prop where
  | init : Reachable W System.init
  | step (σ σ' : System) : Reachable W σ → Step W σ σ' → Reachable W σ'

/-- The counting invariant of the guard: the lock objects of a thread that own
a mutex are as many as the levels at which the thread owns that mutex. -/
def System.Inv (σ : System) : Prop :=
  ∀ t m, σ.owned t m = (σ.mutexes m).heldBy t

/-- Every handle that is alive owns its lock. -/
def System.HandlesOwn (σ : System) : Prop :=
  ∀ t h, h ∈ σ.handles t → h.refresh_lock.owns = true

/-- Every lock object that owns has a mutex, and every handle has one. -/
def System.LocksHaveMutex (σ : System) : Prop :=
  (∀ t l, l ∈ σ.locks t → l.owns = true → l.pm.isSome = true) ∧
    ∀ t h, h ∈ σ.handles t → h.refresh_lock.pm.isSome = true

/-- The state after thread 1 has called `wallet()` of `sampleImpl` twice, the
second call while holding the handle of the first. -/
def nested : System :=
  ⟨Function.update (Function.update System.init.mutexes 7 (.locked 1 0)) 7 (.locked 1 1),
   System.init.locks,
   Function.update
     (Function.update System.init.handles 1
       (⟨⟨some 7, true⟩, some 64⟩ :: System.init.handles 1)) 1
     (⟨⟨some 7, true⟩, some 64⟩ ::
       Function.update System.init.handles 1
         (⟨⟨some 7, true⟩, some 64⟩ :: System.init.handles 1) 1)⟩

/-- A store in which no mutex is owned. -/
def allUnlocked : Mutexes := fun _ => .unlocked

/-- A store in which thread 1 owns mutex 7 at two levels. -/
def heldTwice : Mutexes := Function.update allUnlocked 7 (.locked 1 1)

/-- A wallet object whose `tools::wallet2` lives at address 64 and whose
refresh mutex lives at address 7. -/
def sampleImpl : WalletImpl := ⟨⟨some 64⟩, 7⟩

/-! ## Wallet state and operations modelled from the specification

The bodies of `WalletImpl::refresh`, `balance`, `createTransaction`,
`disposeTransaction`, `importKeyImages` and of the proof functions are in
`wallet.cpp` and `wallet2.cpp`; the header only declares them. The definitions
of this part follow the data model (§3), the component design (§4) and the
interfaces (§6, §7) of the specification. Amounts and heights are natural
numbers, as in the specification; the 64-bit range of the declared C++ types is
not part of the model. -/

/-- Modelled from the spec: an owned output as a block summary reports it
(§3 Output: amount, owning subaddress, key image); the scanner that finds it
is in `wallet2.cpp`. -/
structure Received where
  amount : Nat
  account : Nat
  address_index : Nat
  key_image : Nat
deriving DecidableEq, Repr

/-- Modelled from the spec: a tracked output (§3 Output): amount, owning
subaddress, key image and the spent/unspent flag; `tools::wallet2`, declared in
`wallet2.h`, keeps these. -/
structure Output where
  amount : Nat
  account : Nat
  address_index : Nat
  key_image : Nat
  spent : Bool
deriving DecidableEq, Repr

/-- Modelled from the spec: the tracked output made from an owned output of a
block (§3 Output, "created when the Synchronizer observes a new owned
output"), with the given spent flag; the scanner is in `wallet2.cpp`. -/
def Received.toOutput (r : Received) (spent : Bool) : Output :=
  ⟨r.amount, r.account, r.address_index, r.key_image, spent⟩

/-- Modelled from the spec: one block summary of the daemon's
`fetchBlocksOrHashes` (§6), reduced to what a sync step applies: the owned
outputs the block creates and the key images the block spends. The daemon
client is not part of the sources. -/
structure BlockSummary where
  received : List Received
  key_images : List Nat
deriving DecidableEq, Repr

/-- Modelled from the spec: a pending transaction (§3 PendingTransaction): the
selected inputs (positions in the list of tracked outputs), the amount sent,
the fee, the change and the priority class; `PendingTransactionImpl` is only
forward-declared in the header. -/
structure PendingTransaction where
  inputs : List Nat
  amount : Nat
  fee : Nat
  change : Nat
  priority : Nat
deriving DecidableEq, Repr

/-- Modelled from the spec: the wallet state (§3 WalletState) as far as the
claims use it: the keys, the tracked outputs in order of discovery (never
deleted), the key-image set (key image to output reference), the sync cursor
(number of blocks processed) and the pending transactions not yet disposed,
whose inputs are the reserved outputs (§5). The state lives in
`tools::wallet2`, declared in `wallet2.h`. -/
structure WalletState where
  spend_key : Nat
  view_key : Nat
  outputs : List Output
  key_images : Nat → Option Nat
  cursor : Nat
  pending : List PendingTransaction

/-- Modelled from the spec: the state of a wallet that has processed no block
(the constructor of `tools::wallet2` is in `wallet2.cpp`). -/
def WalletState.fresh (spend_key view_key : Nat) : WalletState :=
  ⟨spend_key, view_key, [], fun _ => none, 0, []⟩

/-- Modelled from the spec: an output is "mutated to spent when its key image
is seen in a later block" (§3 Output); the scanner is in `wallet2.cpp`. -/
def Output.markSpent (key_images : List Nat) (o : Output) : Output :=
  if o.key_image ∈ key_images then { o with spent := true } else o

/-- Modelled from the spec: applying one block to the wallet state (§4.2 loop
body, "discover/spend outputs, advance cursor"): tracked outputs whose key
image the block shows become spent, the owned outputs of the block are added
unspent, and the cursor advances by one. The body is in `wallet2.cpp`. -/
def WalletState.applyBlock (st : WalletState) (b : BlockSummary) : WalletState :=
  { st with
    outputs := st.outputs.map (Output.markSpent b.key_images) ++
      b.received.map (fun r => r.toOutput false)
    cursor := st.cursor + 1 }

/-- Modelled from the spec: the daemon's `fetchBlocksOrHashes(fromHeight)`
(§6) on a chain of block summaries, returning at most `n` blocks; the daemon
client is not part of the sources. -/
def fetchBlocksOrHashes (chain : List BlockSummary) (fromHeight n : Nat) : List BlockSummary :=
  (chain.drop fromHeight).take n

/-- Modelled from the spec: one sync step, the body of `WalletImpl::refresh`
(§4.2), which is in `wallet.cpp`: pull new blocks starting at the cursor (`n`
is the size of the pull) and apply each to the wallet state. -/
def WalletState.refresh (chain : List BlockSummary) (n : Nat) (st : WalletState) : WalletState :=
  (fetchBlocksOrHashes chain st.cursor n).foldl WalletState.applyBlock st

/-- Modelled from the spec: a sequence of sync steps applied in order (§8), one
pull size per step; the refresh loop is in `wallet.cpp`. -/
def WalletState.sync (chain : List BlockSummary) (pulls : List Nat) (st : WalletState) :
    WalletState :=
  pulls.foldl (fun s n => s.refresh chain n) st

/-- Modelled from the spec: `WalletImpl::balance(accountIndex)`, whose body is
in `wallet.cpp`: the sum of the amounts of the tracked outputs of the account
that are not spent. -/
def WalletState.balance (st : WalletState) (accountIndex : Nat) : Nat :=
  ((st.outputs.filter (fun o => !o.spent && o.account == accountIndex)).map
    (fun o => o.amount)).sum

/-- Modelled from the spec: the outputs that are unspent once the blocks of a
chain prefix are processed (§8, "unspent outputs at the final cursor height"),
read off the chain and not off a wallet: the owned outputs of a block whose
key image no later block of the prefix shows, block by block. -/
def unspentOutputs : List BlockSummary → List Received
  | [] => []
  | b :: rest =>
    b.received.filter (fun r => !rest.any (fun b' => decide (r.key_image ∈ b'.key_images))) ++
      unspentOutputs rest

/-- Modelled from the spec: the tracked outputs a wallet holds once it has
processed a chain prefix from the start, each with the spent flag the later
blocks of the prefix give it (§3 Output); used to relate `applyBlock` to
`unspentOutputs`. -/
def trackedOutputs : List BlockSummary → List Output
  | [] => []
  | b :: rest =>
    b.received.map (fun r =>
      r.toOutput (rest.any (fun b' => decide (r.key_image ∈ b'.key_images)))) ++
      trackedOutputs rest

/-- Modelled from the spec: the error taxonomy of §7; the C++ interface reports
errors through `status()`, whose body is in `wallet.cpp`. -/
inductive WalletError where
  | InsufficientFunds
  | InvalidDestination
  | InvalidMappingYears
  | InvalidServiceNodeKey
  | MultisigRoundMismatch
  | MultisigAlreadyFinalized
  | InvalidSignature
  | DaemonUnavailable
  | Timeout
  | CriticalInternal
deriving DecidableEq, Repr

/-- Modelled from the spec: what the transaction builder takes from its
collaborators (§4.3, §6), none of which is in the sources: the address check,
whether the daemon can be reached for decoy data, the fee estimate ("pure
function of priority tier and recipient count") and the input selection. The
selection algorithm is left open by the specification (§9), so it is a
parameter: it returns a sub-list of the candidates it is given ("select a
subset") whose amounts cover the target ("sufficient"). -/
structure BuilderEnv where
  validAddress : String → Bool
  daemonAvailable : Bool
  estimateTransactionFee : Nat → Nat → Nat
  select : List (Nat × Output) → Nat → Option (List (Nat × Output))
  select_sublist : ∀ candidates target sel,
    select candidates target = some sel → sel.Sublist candidates
  select_covers : ∀ candidates target sel,
    select candidates target = some sel → target ≤ (sel.map (fun io => io.2.amount)).sum

/-- Modelled from the spec: whether the output at position `i` is reserved by a
pending transaction that has not been disposed (§4.3 side effects, §5). -/
def WalletState.reserved (st : WalletState) (i : Nat) : Bool :=
  st.pending.any (fun p => decide (i ∈ p.inputs))

/-- Modelled from the spec: the outputs the builder may select (§4.3, "gather
unspent outputs eligible under the account/index restriction"), with their
positions: unspent, of the source account, of one of the given subaddress
indices when any is given, and not reserved. The body is in `wallet2.cpp`. -/
def WalletState.eligible (st : WalletState) (subaddr_account : Nat)
    (subaddr_indices : List Nat) : List (Nat × Output) :=
  st.outputs.enum.filter (fun io =>
    !io.2.spent && io.2.account == subaddr_account &&
      (subaddr_indices.isEmpty || decide (io.2.address_index ∈ subaddr_indices)) &&
      !st.reserved io.1)

/-- Modelled from the spec: the pending transactions reserve disjoint outputs
(§4.3, "building reserves the selected outputs against concurrent
re-selection by another in-flight build"). -/
def WalletState.ReservationsDisjoint (st : WalletState) : Prop :=
  st.pending.Pairwise (fun a b => ∀ i ∈ a.inputs, i ∉ b.inputs)

/-- Modelled from the spec: `WalletImpl::createTransaction` (§4.3), whose body
is in `wallet.cpp`: fails with `InvalidDestination` on a malformed address,
with `DaemonUnavailable` when decoy data cannot be fetched and with
`InsufficientFunds` when the eligible outputs do not cover amount plus fee; no
amount means sweeping all eligible outputs. On success the selected outputs
are reserved by the new pending transaction. -/
def WalletState.createTransaction (env : BuilderEnv) (st : WalletState) (dst_addr : String)
    (amount : Option Nat) (priority subaddr_account : Nat) (subaddr_indices : List Nat) :
    Except WalletError (WalletState × PendingTransaction) :=
  if !env.validAddress dst_addr then .error .InvalidDestination
  else if !env.daemonAvailable then .error .DaemonUnavailable
  else
    let fee := env.estimateTransactionFee priority 1
    let candidates := st.eligible subaddr_account subaddr_indices
    match amount with
    | some a =>
      match env.select candidates (a + fee) with
      | none => .error .InsufficientFunds
      | some sel =>
        let p : PendingTransaction :=
          ⟨sel.map (fun io => io.1), a, fee,
            (sel.map (fun io => io.2.amount)).sum - (a + fee), priority⟩
        .ok ({ st with pending := p :: st.pending }, p)
    | none =>
      let total := (candidates.map (fun io => io.2.amount)).sum
      if total ≤ fee then .error .InsufficientFunds
      else
        let p : PendingTransaction :=
          ⟨candidates.map (fun io => io.1), total - fee, fee, 0, priority⟩
        .ok ({ st with pending := p :: st.pending }, p)

/-- Modelled from the spec: `WalletImpl::disposeTransaction` (§3
PendingTransaction, "disposing releases all referenced input reservations"),
whose body is in `wallet.cpp`: the pending transaction is dropped from the
state. -/
def WalletState.disposeTransaction (st : WalletState) (t : PendingTransaction) : WalletState :=
  { st with pending := st.pending.erase t }

/-- Modelled from the spec: what a signature binds: the entries of a key-image
blob (§4.6), or the fields of a transaction, spend or reserve proof (§4.5). -/
inductive Statement where
  | keyImages (entries : List (Nat × Nat))
  | txProof (sender : Nat) (recipient txid message : String)
  | spendProof (txid message : String)
  | reserveProof (claimed : List Output) (message : String)
deriving DecidableEq, Repr

/-- Modelled from the spec: the signing primitives (§6), "consumed as opaque,
already-correct functions" and not part of the sources: key derivation,
`sign`, `verify`, and the correctness the specification grants them, that a
signature made with a secret key verifies under its public key. -/
structure SigningPrimitives where
  public_key : Nat → Nat
  sign : Nat → Statement → String
  verify : Nat → Statement → String → Bool
  verify_sign : ∀ secret statement,
    verify (public_key secret) statement (sign secret statement) = true

/-- Modelled from the spec: the signed key-image blob (§3 KeyImageSet, §4.6):
pairs of key image and output reference, and a signature. The C++ functions
read and write it as a file. -/
structure KeyImageBlob where
  entries : List (Nat × Nat)
  signature : String
deriving DecidableEq, Repr

/-- Modelled from the spec: adding the entries of a blob to the key-image set
(§3 KeyImageSet, "key image to output reference mapping"), in order. -/
def mergeKeyImages (m : Nat → Option Nat) (entries : List (Nat × Nat)) : Nat → Option Nat :=
  entries.foldl (fun m e => Function.update m e.1 (some e.2)) m

/-- Modelled from the spec: `WalletImpl::exportKeyImages` (§4.6), whose body is
in `wallet.cpp`: the entries signed with the view key of the wallet. -/
def WalletState.exportKeyImages (S : SigningPrimitives) (st : WalletState)
    (entries : List (Nat × Nat)) : KeyImageBlob :=
  ⟨entries, S.sign st.view_key (.keyImages entries)⟩

/-- Modelled from the spec: `WalletImpl::importKeyImages` (§4.6), whose body is
in `wallet.cpp`: a blob "not signed by the wallet's own view key" is rejected
with `InvalidSignature` and the state is unchanged; otherwise the entries are
added to the key-image set. The result is the state after the call and the
error, if any. -/
def WalletState.importKeyImages (S : SigningPrimitives) (st : WalletState)
    (blob : KeyImageBlob) : WalletState × Option WalletError :=
  if S.verify (S.public_key st.view_key) (.keyImages blob.entries) blob.signature then
    ({ st with key_images := mergeKeyImages st.key_images blob.entries }, none)
  else (st, some .InvalidSignature)

/-- Modelled from the spec: a reserve proof (§4.5): the claimed output set and
the signature over it and the message; the C++ functions pass it as one
string. -/
structure ReserveProof where
  claimed : List Output
  signature : String
deriving DecidableEq, Repr

/-- Modelled from the spec: what `checkReserveProof` reports (§4.5): validity,
and the total and already-spent amounts of the claimed output set. -/
structure ReserveCheck where
  good : Bool
  total : Nat
  spent : Nat
deriving DecidableEq, Repr

/-- Modelled from the spec: `WalletImpl::getTxProof` (§4.5), whose body is in
`wallet.cpp`: a "signed statement binding sender, recipient, transaction, and
an arbitrary message". -/
def WalletState.getTxProof (S : SigningPrimitives) (st : WalletState)
    (txid address message : String) : String :=
  S.sign st.spend_key (.txProof (S.public_key st.spend_key) address txid message)

/-- Modelled from the spec: `WalletImpl::checkTxProof` (§4.5), whose body is in
`wallet.cpp`: `good`, for the public key `signer` of the sender. -/
def checkTxProof (S : SigningPrimitives) (signer : Nat)
    (txid address message signature : String) : Bool :=
  S.verify signer (.txProof signer address txid message) signature

/-- Modelled from the spec: `WalletImpl::getSpendProof` (§4.5), whose body is
in `wallet.cpp`: a signature over the transaction, "bound to a message". -/
def WalletState.getSpendProof (S : SigningPrimitives) (st : WalletState)
    (txid message : String) : String :=
  S.sign st.spend_key (.spendProof txid message)

/-- Modelled from the spec: `WalletImpl::checkSpendProof` (§4.5), whose body is
in `wallet.cpp`: `good`, for the public key `signer` of the spender. -/
def checkSpendProof (S : SigningPrimitives) (signer : Nat)
    (txid message signature : String) : Bool :=
  S.verify signer (.spendProof txid message) signature

/-- Modelled from the spec: `WalletImpl::getReserveProof` (§4.5), whose body is
in `wallet.cpp`: the claimed set is the unspent outputs of one account or of
all accounts; for one account it has to reach the claimed amount. -/
def WalletState.getReserveProof (S : SigningPrimitives) (st : WalletState) (all : Bool)
    (account_index amount : Nat) (message : String) : Except WalletError ReserveProof :=
  let claimed := st.outputs.filter (fun o => !o.spent && (all || o.account == account_index))
  if !all && (claimed.map (fun o => o.amount)).sum < amount then .error .InsufficientFunds
  else .ok ⟨claimed, S.sign st.spend_key (.reserveProof claimed message)⟩

/-- Modelled from the spec: `WalletImpl::checkReserveProof` (§4.5), whose body
is in `wallet.cpp`: validity for the public key `signer`, and the "total and
already-spent amounts within the proof's claimed output set"; `is_spent` is
the chain's answer for a key image. -/
def checkReserveProof (S : SigningPrimitives) (is_spent : Nat → Bool) (signer : Nat)
    (message : String) (proof : ReserveProof) : ReserveCheck :=
  ⟨S.verify signer (.reserveProof proof.claimed message) proof.signature,
   (proof.claimed.map (fun o => o.amount)).sum,
   ((proof.claimed.filter (fun o => is_spent o.key_image)).map (fun o => o.amount)).sum⟩

/-! ### Sample values for the modelled part -/

/-- An input selection for examples: the shortest initial segment of the
candidates whose amounts cover the target. -/
def shortestCover (candidates : List (Nat × Output)) (target : Nat) :
    Option (List (Nat × Output)) :=
  ((List.range (candidates.length + 1)).find? (fun n =>
    decide (target ≤ ((candidates.take n).map (fun io => io.2.amount)).sum))).map
    (fun n => candidates.take n)

/-- A builder environment for examples: every non-empty address is valid, the
daemon is reachable, the fee is 1000 per priority step and recipient. -/
def sampleEnv : BuilderEnv where
  validAddress := fun a => !a.isEmpty
  daemonAvailable := true
  estimateTransactionFee := fun priority recipients => 1000 * priority * recipients
  select := shortestCover
  select_sublist := by
    intro candidates target sel h
    simp only [shortestCover, Option.map_eq_some'] at h
    obtain ⟨n, -, rfl⟩ := h
    exact List.take_sublist n candidates
  select_covers := by
    intro candidates target sel h
    simp only [shortestCover, Option.map_eq_some'] at h
    obtain ⟨n, hn, rfl⟩ := h
    simpa using List.find?_some hn

/-- The wallet of the scenario in §8: cursor at height 100 and one unspent
output of 5000000 units. -/
def sampleWallet : WalletState :=
  ⟨1, 2, [⟨5000000, 0, 0, 11, false⟩], fun _ => none, 100, []⟩

/-- A chain of three blocks: the first pays the wallet 5000000 (key image 11)
and 300 (key image 12), the second pays 70 to account 1 and spends key image
12, the third spends a key image the wallet does not own. -/
def sampleChain : List BlockSummary :=
  [⟨[⟨5000000, 0, 0, 11⟩, ⟨300, 0, 1, 12⟩], []⟩, ⟨[⟨70, 1, 0, 13⟩], [12]⟩, ⟨[], [99]⟩]

/-- A readable text for a statement, for `sampleScheme`. -/
def Statement.describe : Statement → String
  | .keyImages entries => "key-images " ++ toString entries
  | .txProof sender recipient txid message =>
    "tx " ++ toString sender ++ " " ++ recipient ++ " " ++ txid ++ " " ++ message
  | .spendProof txid message => "spend " ++ txid ++ " " ++ message
  | .reserveProof claimed message =>
    "reserve " ++ toString (claimed.map (fun o => o.key_image)) ++ " " ++ message

/-- An instance of the signing primitives for examples, showing that their law
can be met; a signature is the public key of the signer followed by the text
of the statement. It stands for no real signature scheme. -/
def sampleScheme : SigningPrimitives where
  public_key := fun secret => 2 * secret + 1
  sign := fun secret statement => toString (2 * secret + 1) ++ "|" ++ statement.describe
  verify := fun signer statement signature =>
    signature == toString signer ++ "|" ++ statement.describe
  verify_sign := by intro secret statement; simp


/-! ## Theorems -/

/-! ### The mutex and lock primitives -/

theorem RecursiveTimedMutex.lock_done {m m' : RecursiveTimedMutex} {t : ThreadId}
    (h : m.lock t = .done m') :
    m'.owner = some t ∧ m'.count = m.count + 1 ∧ m'.unlock t = .done m := by
  cases m with
  | unlocked =>
    simp only [RecursiveTimedMutex.lock, Outcome.done.injEq] at h
    subst h
    simp [RecursiveTimedMutex.owner, RecursiveTimedMutex.count, RecursiveTimedMutex.unlock]
  | locked o e =>
    by_cases hot : o = t
    · simp only [RecursiveTimedMutex.lock, hot, if_true, Outcome.done.injEq] at h
      subst h
      simp [RecursiveTimedMutex.owner, RecursiveTimedMutex.count, RecursiveTimedMutex.unlock, hot]
    · simp [RecursiveTimedMutex.lock, hot] at h

theorem RecursiveTimedMutex.lock_returns {m : RecursiveTimedMutex} {t : ThreadId}
    (h : m.owner = none ∨ m.owner = some t) : ∃ m', m.lock t = .done m' := by
  cases m with
  | unlocked => exact ⟨_, rfl⟩
  | locked o e =>
    have hot : o = t := by simpa [RecursiveTimedMutex.owner] using h
    exact ⟨.locked o (e + 1), by simp [RecursiveTimedMutex.lock, hot]⟩

theorem RecursiveTimedMutex.lock_blocked_iff (m : RecursiveTimedMutex) (t : ThreadId) :
    m.lock t = .blocked ↔ ∃ o, m.owner = some o ∧ o ≠ t := by
  cases m with
  | unlocked => simp [RecursiveTimedMutex.lock, RecursiveTimedMutex.owner]
  | locked o e =>
    by_cases hot : o = t <;> simp [RecursiveTimedMutex.lock, RecursiveTimedMutex.owner, hot]

theorem RecursiveTimedMutex.lock_never_raises (m : RecursiveTimedMutex) (t : ThreadId)
    (e : Fault) : m.lock t ≠ .raised e := by
  cases m with
  | unlocked => simp [RecursiveTimedMutex.lock]
  | locked o x => by_cases hot : o = t <;> simp [RecursiveTimedMutex.lock, hot]

theorem Outcome.bind_eq_done {α β : Type} {x : Outcome α} {f : α → Outcome β} {b : β}
    (h : x.bind f = .done b) : ∃ a, x = .done a ∧ f a = .done b := by
  cases x with
  | done a => exact ⟨a, rfl, h⟩
  | blocked => simp [Outcome.bind] at h
  | raised e => simp [Outcome.bind] at h

theorem UniqueLock.lockingCtor_done {s s' : Mutexes} {t : ThreadId} {m : MutexId} {l : UniqueLock}
    (h : UniqueLock.ofMutex s t m = .done (s', l)) :
    ∃ m', (s m).lock t = .done m' ∧ s' = Function.update s m m' ∧ l = ⟨some m, true⟩ := by
  obtain ⟨m', h1, h2⟩ := Outcome.bind_eq_done h
  simp only [Outcome.done.injEq, Prod.mk.injEq] at h2
  exact ⟨m', h1, h2.1.symm, h2.2.symm⟩

theorem LockedWallet.ofMutex_done {s s' : Mutexes} {t : ThreadId} {w : UniquePtr} {m : MutexId}
    {h : LockedWallet} (hd : LockedWallet.ofMutex s t w m = .done (s', h)) :
    ∃ m', (s m).lock t = .done m' ∧ s' = Function.update s m m' ∧
      h = ⟨⟨some m, true⟩, w.get⟩ := by
  obtain ⟨r, h1, h2⟩ := Outcome.bind_eq_done hd
  obtain ⟨r1, r2⟩ := r
  obtain ⟨m', hm, hs, hl⟩ := UniqueLock.lockingCtor_done h1
  simp only [Outcome.done.injEq, Prod.mk.injEq] at h2
  refine ⟨m', hm, ?_, ?_⟩
  · rw [← h2.1, hs]
  · rw [← h2.2, hl]

theorem LockedWallet.ofMutex_returns {s : Mutexes} {t : ThreadId} (w : UniquePtr) {m : MutexId}
    (h : (s m).owner = none ∨ (s m).owner = some t) :
    ∃ s' h', LockedWallet.ofMutex s t w m = .done (s', h') := by
  obtain ⟨m', hm⟩ := RecursiveTimedMutex.lock_returns h
  exact ⟨Function.update s m m', ⟨⟨some m, true⟩, w.get⟩,
    by simp [LockedWallet.ofMutex, UniqueLock.ofMutex, hm, Outcome.bind]⟩

theorem LockedWallet.destroy_ofMutex {s s' : Mutexes} {t : ThreadId} {w : UniquePtr}
    {m : MutexId} {h : LockedWallet} (hd : LockedWallet.ofMutex s t w m = .done (s', h)) :
    h.destroy s' t = .done s := by
  obtain ⟨m', hm, hs, hh⟩ := LockedWallet.ofMutex_done hd
  subst hs hh
  have hu := (RecursiveTimedMutex.lock_done hm).2.2
  simp [LockedWallet.destroy, UniqueLock.destroy, hu, Outcome.bind]

theorem LockedWallet.ofLock_owning {s : Mutexes} {t : ThreadId} {w : UniquePtr}
    {lock : UniqueLock} (ho : lock.owns = true) :
    LockedWallet.ofLock s t w lock = .done (s, ⟨lock, w.get⟩) := by
  simp [LockedWallet.ofLock, UniqueLock.move, UniqueLock.toBool, ho]

theorem LockedWallet.ofLock_not_owning {s : Mutexes} {t : ThreadId} {w : UniquePtr}
    {lock : UniqueLock} (ho : lock.owns = false) :
    LockedWallet.ofLock s t w lock =
      match lock.pm with
      | none => .raised .operation_not_permitted
      | some m => ((s m).lock t).bind fun m' =>
          .done (Function.update s m m', ⟨⟨some m, true⟩, w.get⟩) := by
  cases hp : lock.pm with
  | none => simp [LockedWallet.ofLock, UniqueLock.move, UniqueLock.toBool, ho, UniqueLock.lock,
      hp, Outcome.bind]
  | some m =>
    simp only [LockedWallet.ofLock, UniqueLock.move, UniqueLock.toBool, ho, UniqueLock.lock, hp]
    cases (s m).lock t <;> simp [Outcome.bind]

theorem LockedWallet.ofLock_not_owning_done {s s' : Mutexes} {t : ThreadId} {w : UniquePtr}
    {lock : UniqueLock} {h : LockedWallet} (ho : lock.owns = false)
    (hd : LockedWallet.ofLock s t w lock = .done (s', h)) :
    ∃ m m', lock.pm = some m ∧ (s m).lock t = .done m' ∧ s' = Function.update s m m' ∧
      h = ⟨⟨some m, true⟩, w.get⟩ := by
  rw [LockedWallet.ofLock_not_owning ho] at hd
  cases hp : lock.pm with
  | none => simp [hp] at hd
  | some m =>
    simp only [hp] at hd
    obtain ⟨m', h1, h2⟩ := Outcome.bind_eq_done hd
    simp only [Outcome.done.injEq, Prod.mk.injEq] at h2
    exact ⟨m, m', rfl, h1, h2.1.symm, h2.2.symm⟩

theorem Mutexes.update_ne_self {s : Mutexes} {m : MutexId} {m' : RecursiveTimedMutex}
    (h : m'.count = (s m).count + 1) : Function.update s m m' ≠ s := by
  intro he
  have := congrFun he m
  simp only [Function.update_same] at this
  rw [this] at h
  omega

theorem LockedWallet.ofMutex_returns_iff (s : Mutexes) (t : ThreadId) (w : UniquePtr)
    (m : MutexId) :
    (∃ r, LockedWallet.ofMutex s t w m = .done r) ↔
      ((s m).owner = none ∨ (s m).owner = some t) := by
  constructor
  · rintro ⟨⟨s', h⟩, hd⟩
    obtain ⟨m', hm, -, -⟩ := LockedWallet.ofMutex_done hd
    cases hs : s m with
    | unlocked => simp [RecursiveTimedMutex.owner]
    | locked o e =>
      by_cases hot : o = t
      · simp [RecursiveTimedMutex.owner, hot]
      · simp [hs, RecursiveTimedMutex.lock, hot] at hm
  · intro ho
    obtain ⟨s', h', hd⟩ := LockedWallet.ofMutex_returns w ho
    exact ⟨_, hd⟩

theorem LockedWallet.ofMutex_post {s s' : Mutexes} {t : ThreadId} {w : UniquePtr} {m : MutexId}
    {h : LockedWallet} (hd : LockedWallet.ofMutex s t w m = .done (s', h)) :
    h.refresh_lock.owns = true ∧ h.refresh_lock.pm = some m ∧
      (s' m).owner = some t ∧ (s' m).count = (s m).count + 1 ∧
      ∀ m₂, m₂ ≠ m → s' m₂ = s m₂ := by
  obtain ⟨m', hm, hs, hh⟩ := LockedWallet.ofMutex_done hd
  obtain ⟨h1, h2, -⟩ := RecursiveTimedMutex.lock_done hm
  subst hs hh
  refine ⟨rfl, rfl, by simpa using h1, by simpa using h2, ?_⟩
  intro m₂ hne
  simp [Function.update_noteq hne]

/-! ### C1: a constructed handle owns the refresh lock -/

/-- C1: whenever either constructor of `LockedWallet` finishes, the handle's
`refresh_lock` owns its mutex. The constructor taking the mutex always locks
it: it finishes exactly when no other thread owns the mutex, and then the
calling thread owns it with the hold count one higher. The constructor taking
a moved `unique_lock` locks the mutex exactly when the moved lock did not own
it: an owning lock is kept as it is and the mutexes are untouched, a lock that
does not own is locked once (hold count one higher, on behalf of the caller). -/
theorem LockedWallet.constructed_handle_owns_lock :
    (∀ (s : Mutexes) (t : ThreadId) (w : UniquePtr) (m : MutexId),
      ((∃ r, LockedWallet.ofMutex s t w m = .done r) ↔
        ((s m).owner = none ∨ (s m).owner = some t)) ∧
      ∀ (s' : Mutexes) (h : LockedWallet), LockedWallet.ofMutex s t w m = .done (s', h) →
        h.refresh_lock.owns = true ∧ h.refresh_lock.pm = some m ∧
        (s' m).owner = some t ∧ (s' m).count = (s m).count + 1 ∧
        ∀ m₂, m₂ ≠ m → s' m₂ = s m₂) ∧
    (∀ (s : Mutexes) (t : ThreadId) (w : UniquePtr) (lock : UniqueLock),
      ((∃ r, LockedWallet.ofLock s t w lock = .done r) ↔
        (lock.owns = true ∨
          ∃ m, lock.pm = some m ∧ ((s m).owner = none ∨ (s m).owner = some t))) ∧
      ∀ (s' : Mutexes) (h : LockedWallet), LockedWallet.ofLock s t w lock = .done (s', h) →
        h.refresh_lock.owns = true ∧ h.refresh_lock.pm = lock.pm ∧
        (s' ≠ s ↔ lock.owns = false) ∧
        (lock.owns = true → s' = s ∧ h.refresh_lock = lock) ∧
        (lock.owns = false → ∃ m, lock.pm = some m ∧
          (s' m).owner = some t ∧ (s' m).count = (s m).count + 1 ∧
          ∀ m₂, m₂ ≠ m → s' m₂ = s m₂)) := by
  refine ⟨fun s t w m => ⟨LockedWallet.ofMutex_returns_iff s t w m,
    fun s' h hd => LockedWallet.ofMutex_post hd⟩, fun s t w lock => ⟨⟨?_, ?_⟩, ?_⟩⟩
  · rintro ⟨⟨s', h⟩, hd⟩
    cases ho : lock.owns with
    | true => exact Or.inl rfl
    | false =>
      right
      obtain ⟨m, m', hp, hm, -, -⟩ := LockedWallet.ofLock_not_owning_done ho hd
      refine ⟨m, hp, ?_⟩
      cases hs : s m with
      | unlocked => simp [RecursiveTimedMutex.owner]
      | locked o e =>
        by_cases hot : o = t
        · simp [RecursiveTimedMutex.owner, hot]
        · simp [hs, RecursiveTimedMutex.lock, hot] at hm
  · intro hc
    cases ho : lock.owns with
    | true => exact ⟨_, LockedWallet.ofLock_owning ho⟩
    | false =>
      rcases hc with hc | ⟨m, hp, hfree⟩
      · simp [ho] at hc
      · obtain ⟨m', hm⟩ := RecursiveTimedMutex.lock_returns hfree
        refine ⟨(Function.update s m m', ⟨⟨some m, true⟩, w.get⟩), ?_⟩
        rw [LockedWallet.ofLock_not_owning ho]
        simp [hp, hm, Outcome.bind]
  · intro s' h hd
    cases ho : lock.owns with
    | true =>
      rw [LockedWallet.ofLock_owning ho] at hd
      simp only [Outcome.done.injEq, Prod.mk.injEq] at hd
      obtain ⟨hs, hh⟩ := hd
      subst hs hh
      simp [ho]
    | false =>
      obtain ⟨m, m', hp, hm, hs, hh⟩ := LockedWallet.ofLock_not_owning_done ho hd
      obtain ⟨h1, h2, -⟩ := RecursiveTimedMutex.lock_done hm
      subst hs hh
      refine ⟨rfl, hp.symm, ?_, by simp, ?_⟩
      · simp only [iff_true]
        exact Mutexes.update_ne_self h2
      · intro _
        refine ⟨m, hp, by simpa using h1, by simpa using h2, ?_⟩
        intro m₂ hne
        simp [Function.update_noteq hne]

/-- Witness for C1: on a store with no mutex owned, thread 1 builds a handle on
mutex 7 with each constructor; both handles own the lock. -/
theorem LockedWallet.constructed_handle_owns_lock_witness :
    LockedWallet.ofMutex allUnlocked 1 ⟨some 64⟩ 7 =
        .done (Function.update allUnlocked 7 (.locked 1 0), ⟨⟨some 7, true⟩, some 64⟩) ∧
      (⟨⟨some 7, true⟩, some 64⟩ : LockedWallet).refresh_lock.owns = true ∧
      LockedWallet.ofLock allUnlocked 1 ⟨some 64⟩ ⟨some 7, false⟩ =
        .done (Function.update allUnlocked 7 (.locked 1 0), ⟨⟨some 7, true⟩, some 64⟩) ∧
      (Function.update allUnlocked 7 (RecursiveTimedMutex.locked 1 0) ≠ allUnlocked ↔
        (⟨some 7, false⟩ : UniqueLock).owns = false) :=
  ⟨rfl,
   ((LockedWallet.constructed_handle_owns_lock.1 allUnlocked 1 ⟨some 64⟩ 7).2 _ _ rfl).1,
   rfl,
   ((LockedWallet.constructed_handle_owns_lock.2 allUnlocked 1 ⟨some 64⟩ ⟨some 7, false⟩).2
      _ _ rfl).2.2.1⟩

/-! ### C2: releasing undoes acquiring -/

/-- C2: for every state of the mutexes and every calling thread, `wallet()`
returns a handle exactly when no other thread owns the refresh mutex, and
destroying that handle afterwards returns and leaves every mutex, the refresh
mutex with its owner and hold count included, exactly as it was before
`wallet()` was called; the destructor of the handle is the destructor of its
one `unique_lock` member. -/
theorem WalletImpl.release_undoes_acquire (W : WalletImpl) (s : Mutexes) (t : ThreadId) :
    ((∃ r, W.wallet s t = .done r) ↔
      ((s W.m_refreshMutex2).owner = none ∨ (s W.m_refreshMutex2).owner = some t)) ∧
    ∀ (s' : Mutexes) (h : LockedWallet), W.wallet s t = .done (s', h) →
      h.destroy s' t = h.refresh_lock.destroy s' t ∧
      ∃ s'', h.destroy s' t = .done s'' ∧ s'' = s ∧
        (s'' W.m_refreshMutex2).owner = (s W.m_refreshMutex2).owner ∧
        (s'' W.m_refreshMutex2).count = (s W.m_refreshMutex2).count := by
  refine ⟨LockedWallet.ofMutex_returns_iff s t W.m_wallet_ptr W.m_refreshMutex2, ?_⟩
  intro s' h hd
  exact ⟨rfl, s, LockedWallet.destroy_ofMutex hd, rfl, rfl, rfl⟩

/-- Witness for C2: thread 1 already owns the refresh mutex of `sampleImpl` at
two levels; `wallet()` raises the hold count to three and the destructor of
the handle brings it back to two. -/
theorem WalletImpl.release_undoes_acquire_witness :
    WalletImpl.wallet sampleImpl heldTwice 1 =
        .done (Function.update heldTwice 7 (.locked 1 2), ⟨⟨some 7, true⟩, some 64⟩) ∧
      ∃ s'', LockedWallet.destroy (Function.update heldTwice 7 (.locked 1 2)) 1
          ⟨⟨some 7, true⟩, some 64⟩ = .done s'' ∧ s'' = heldTwice ∧
        (s'' sampleImpl.m_refreshMutex2).owner = (heldTwice sampleImpl.m_refreshMutex2).owner ∧
        (s'' sampleImpl.m_refreshMutex2).count = (heldTwice sampleImpl.m_refreshMutex2).count :=
  ⟨rfl, ((WalletImpl.release_undoes_acquire sampleImpl heldTwice 1).2 _ _ rfl).2⟩

/-! ### C10: the pointer a handle gives access to -/

/-- C10: `operator->` of a handle built by either constructor returns the
pointer that the `unique_ptr` passed to the constructor held at that moment;
the result depends on the handle alone (the member `wallet` is `const`), so it
is that pointer at every later state of the mutexes and of the `unique_ptr`.
Every handle returned by `wallet()` points at the object `m_wallet_ptr` holds,
is associated with `m_refreshMutex2` and owns it, and the mutex is then owned
by the calling thread. -/
theorem LockedWallet.arrow_is_constructed_pointer :
    (∀ (s : Mutexes) (t : ThreadId) (w : UniquePtr) (m : MutexId) (s' : Mutexes)
        (h : LockedWallet), LockedWallet.ofMutex s t w m = .done (s', h) →
      h.arrow = w.get) ∧
    (∀ (s : Mutexes) (t : ThreadId) (w : UniquePtr) (lock : UniqueLock) (s' : Mutexes)
        (h : LockedWallet), LockedWallet.ofLock s t w lock = .done (s', h) →
      h.arrow = w.get) ∧
    (∀ (W : WalletImpl) (s : Mutexes) (t : ThreadId) (s' : Mutexes) (h : LockedWallet),
      W.wallet s t = .done (s', h) →
        h.arrow = W.m_wallet_ptr.get ∧
        h.refresh_lock = ⟨some W.m_refreshMutex2, true⟩ ∧
        (s' W.m_refreshMutex2).owner = some t ∧
        0 < (s' W.m_refreshMutex2).count) := by
  refine ⟨?_, ?_, ?_⟩
  · intro s t w m s' h hd
    obtain ⟨m', -, -, hh⟩ := LockedWallet.ofMutex_done hd
    rw [hh]; rfl
  · intro s t w lock s' h hd
    cases ho : lock.owns with
    | true =>
      rw [LockedWallet.ofLock_owning ho] at hd
      simp only [Outcome.done.injEq, Prod.mk.injEq] at hd
      rw [← hd.2]; rfl
    | false =>
      obtain ⟨m, m', -, -, -, hh⟩ := LockedWallet.ofLock_not_owning_done ho hd
      rw [hh]; rfl
  · intro W s t s' h hd
    obtain ⟨m', hm, hs, hh⟩ := LockedWallet.ofMutex_done hd
    obtain ⟨h1, h2, -⟩ := RecursiveTimedMutex.lock_done hm
    subst hs hh
    refine ⟨rfl, rfl, by simpa using h1, ?_⟩
    simp only [Function.update_same]
    omega

/-- Witness for C10: the handle `wallet()` returns for `sampleImpl` points at
address 64 and owns mutex 7; a handle built from a moved owning lock points at
the object of the `unique_ptr` it was given. -/
theorem LockedWallet.arrow_is_constructed_pointer_witness :
    WalletImpl.wallet sampleImpl allUnlocked 1 =
        .done (Function.update allUnlocked 7 (.locked 1 0), ⟨⟨some 7, true⟩, some 64⟩) ∧
      (⟨⟨some 7, true⟩, some 64⟩ : LockedWallet).arrow = some 64 ∧
      LockedWallet.ofLock heldTwice 1 ⟨some 80⟩ ⟨some 7, true⟩ =
        .done (heldTwice, ⟨⟨some 7, true⟩, some 80⟩) ∧
      (⟨⟨some 7, true⟩, some 80⟩ : LockedWallet).arrow = some 80 :=
  ⟨rfl, (LockedWallet.arrow_is_constructed_pointer.2.2 sampleImpl allUnlocked 1 _ _ rfl).1,
   rfl, LockedWallet.arrow_is_constructed_pointer.2.1 heldTwice 1 ⟨some 80⟩ ⟨some 7, true⟩ _ _ rfl⟩

/-! ### C3: which accesses go through the guard -/

theorem WalletImpl.readThroughGuard_available {W2 : Type} (f : W2 → Nat) (W : WalletImpl)
    (σ : Process W2) (t : ThreadId)
    (hfree : (σ.mutexes W.m_refreshMutex2).owner = none ∨
      (σ.mutexes W.m_refreshMutex2).owner = some t) :
    WalletImpl.readThroughGuard f W σ t =
      (σ.deref W.m_wallet_ptr.get).bind fun w => .done (σ, f w) := by
  obtain ⟨s', h, hd⟩ := LockedWallet.ofMutex_returns W.m_wallet_ptr hfree
  have hdes := LockedWallet.destroy_ofMutex hd
  obtain ⟨m', -, -, hh⟩ := LockedWallet.ofMutex_done hd
  have harrow : h.arrow = W.m_wallet_ptr.get := by rw [hh]; rfl
  have hderef : Process.deref (⟨s', σ.heap⟩ : Process W2) h.arrow
      = σ.deref W.m_wallet_ptr.get := by
    rw [harrow]; rfl
  unfold WalletImpl.readThroughGuard WalletImpl.wallet
  rw [hd]
  simp only [Outcome.bind]
  rw [hderef]
  cases σ.deref W.m_wallet_ptr.get with
  | done w => simp only [hdes]
  | blocked => rfl
  | raised e => rfl

theorem WalletImpl.readThroughGuard_waits {W2 : Type} (f : W2 → Nat) (W : WalletImpl)
    (σ : Process W2) (t o : ThreadId)
    (hown : (σ.mutexes W.m_refreshMutex2).owner = some o) (hne : o ≠ t) :
    WalletImpl.readThroughGuard f W σ t = .blocked := by
  have hb : (σ.mutexes W.m_refreshMutex2).lock t = .blocked :=
    (RecursiveTimedMutex.lock_blocked_iff _ t).2 ⟨o, hown, hne⟩
  simp [WalletImpl.readThroughGuard, WalletImpl.wallet, LockedWallet.ofMutex,
    UniqueLock.ofMutex, hb, Outcome.bind]

theorem Process.deref_not_blocked {W2 : Type} (σ : Process W2) (p : Option Addr) :
    σ.deref p ≠ .blocked := by
  unfold Process.deref
  cases p with
  | none => simp
  | some a => cases hh : σ.heap a <;> simp [hh]

/-- C3, as stated, fails: while thread 1 owns the refresh mutex, thread 2 calls
`getRefreshFromBlockHeight()` and `nettype()`; both return the values read
from the wallet object and leave the process as it was, whereas the same reads
made through a handle from `wallet()` wait for the mutex. -/
theorem WalletImpl.inline_accessors_bypass_guard :
    (refreshing.mutexes sampleImpl.m_refreshMutex2).owner = some 1 ∧
    WalletImpl.getRefreshFromBlockHeight sampleApi sampleImpl refreshing 2 =
      .done (refreshing, 100) ∧
    WalletImpl.readThroughGuard sampleApi.get_refresh_from_block_height sampleImpl
      refreshing 2 = .blocked ∧
    WalletImpl.nettype sampleApi sampleImpl refreshing 2 = .done (refreshing, 1) ∧
    WalletImpl.readThroughGuard sampleApi.nettype sampleImpl refreshing 2 = .blocked ∧
    ¬ (∀ (W : WalletImpl) (σ : Process SampleWallet2) (t : ThreadId),
        WalletImpl.getRefreshFromBlockHeight sampleApi W σ t =
          WalletImpl.readThroughGuard sampleApi.get_refresh_from_block_height W σ t ∧
        WalletImpl.nettype sampleApi W σ t =
          WalletImpl.readThroughGuard sampleApi.nettype W σ t) := by
  have h1 : WalletImpl.getRefreshFromBlockHeight sampleApi sampleImpl refreshing 2 =
      .done (refreshing, 100) := rfl
  have h2 : WalletImpl.readThroughGuard sampleApi.get_refresh_from_block_height sampleImpl
      refreshing 2 = .blocked := rfl
  refine ⟨rfl, h1, h2, rfl, rfl, ?_⟩
  intro hall
  have := (hall sampleImpl refreshing 2).1
  rw [h1, h2] at this
  exact Outcome.noConfusion this

/-- C3, amended: the guarded way to the wallet object is `wallet()`, whose
handle owns `m_refreshMutex2` for the calling thread. The inline accessors
`getRefreshFromBlockHeight` and `nettype` read through `m_wallet_ptr`
directly: in every state they never wait, they leave the process (mutexes
included) unchanged, and they return what `m_wallet_ptr->...()` returns; when
no other thread owns the refresh mutex they have the outcome of the same read
made through a handle, and when another thread owns it the read through a
handle waits while the accessors do not. -/
theorem WalletImpl.inline_accessors_read_directly {W2 : Type} (api : Wallet2Api W2)
    (W : WalletImpl) (σ : Process W2) (t : ThreadId) :
    WalletImpl.getRefreshFromBlockHeight api W σ t =
      (σ.deref W.m_wallet_ptr.get).bind
        (fun w => .done (σ, api.get_refresh_from_block_height w)) ∧
    WalletImpl.nettype api W σ t =
      (σ.deref W.m_wallet_ptr.get).bind (fun w => .done (σ, api.nettype w)) ∧
    WalletImpl.getRefreshFromBlockHeight api W σ t ≠ .blocked ∧
    WalletImpl.nettype api W σ t ≠ .blocked ∧
    (∀ σ' v, WalletImpl.getRefreshFromBlockHeight api W σ t = .done (σ', v) → σ' = σ) ∧
    (∀ σ' v, WalletImpl.nettype api W σ t = .done (σ', v) → σ' = σ) ∧
    (((σ.mutexes W.m_refreshMutex2).owner = none ∨
        (σ.mutexes W.m_refreshMutex2).owner = some t) →
      WalletImpl.getRefreshFromBlockHeight api W σ t =
        WalletImpl.readThroughGuard api.get_refresh_from_block_height W σ t ∧
      WalletImpl.nettype api W σ t = WalletImpl.readThroughGuard api.nettype W σ t) ∧
    (∀ o, (σ.mutexes W.m_refreshMutex2).owner = some o → o ≠ t →
      WalletImpl.readThroughGuard api.get_refresh_from_block_height W σ t = .blocked ∧
      WalletImpl.readThroughGuard api.nettype W σ t = .blocked) ∧
    (∀ s' h, W.wallet σ.mutexes t = .done (s', h) →
      h.refresh_lock = ⟨some W.m_refreshMutex2, true⟩ ∧
      (s' W.m_refreshMutex2).owner = some t ∧ h.arrow = W.m_wallet_ptr.get) := by
  have key : ∀ (f : W2 → Nat),
      ((σ.deref W.m_wallet_ptr.get).bind (fun w => Outcome.done (σ, f w)) ≠ .blocked) ∧
      (∀ σ' v, (σ.deref W.m_wallet_ptr.get).bind (fun w => Outcome.done (σ, f w))
        = .done (σ', v) → σ' = σ) := by
    intro f
    have hnb := Process.deref_not_blocked σ W.m_wallet_ptr.get
    cases hd : σ.deref W.m_wallet_ptr.get with
    | done w =>
      refine ⟨by simp [Outcome.bind], ?_⟩
      intro σ' v hv
      simp only [Outcome.bind, Outcome.done.injEq, Prod.mk.injEq] at hv
      exact hv.1.symm
    | blocked => exact absurd hd hnb
    | raised e => exact ⟨by simp [Outcome.bind], by intro σ' v hv; simp [Outcome.bind] at hv⟩
  refine ⟨rfl, rfl, (key _).1, (key _).1, (key _).2, (key _).2, ?_, ?_, ?_⟩
  · intro hfree
    exact ⟨(WalletImpl.readThroughGuard_available _ W σ t hfree).symm,
      (WalletImpl.readThroughGuard_available _ W σ t hfree).symm⟩
  · intro o hown hne
    exact ⟨WalletImpl.readThroughGuard_waits _ W σ t o hown hne,
      WalletImpl.readThroughGuard_waits _ W σ t o hown hne⟩
  · intro s' h hd
    obtain ⟨m', hm, hs, hh⟩ := LockedWallet.ofMutex_done hd
    obtain ⟨h1, -, -⟩ := RecursiveTimedMutex.lock_done hm
    subst hs hh
    exact ⟨rfl, by simpa using h1, rfl⟩

/-- Witness for the amended C3: with no mutex owned, the accessors of
`sampleImpl` called by thread 2 agree with the reads through a handle. -/
theorem WalletImpl.inline_accessors_read_directly_witness :
    ((idle.mutexes sampleImpl.m_refreshMutex2).owner = none ∨
        (idle.mutexes sampleImpl.m_refreshMutex2).owner = some 2) ∧
      WalletImpl.getRefreshFromBlockHeight sampleApi sampleImpl idle 2 =
        WalletImpl.readThroughGuard sampleApi.get_refresh_from_block_height sampleImpl idle 2 ∧
      WalletImpl.nettype sampleApi sampleImpl idle 2 =
        WalletImpl.readThroughGuard sampleApi.nettype sampleImpl idle 2 ∧
      WalletImpl.getRefreshFromBlockHeight sampleApi sampleImpl idle 2 = .done (idle, 100) :=
  ⟨Or.inl rfl,
   ((WalletImpl.inline_accessors_read_directly sampleApi sampleImpl idle 2).2.2.2.2.2.2.1
      (Or.inl rfl)).1,
   ((WalletImpl.inline_accessors_read_directly sampleApi sampleImpl idle 2).2.2.2.2.2.2.1
      (Or.inl rfl)).2,
   rfl⟩

/-! ### C5: the guard is exclusive across threads -/

theorem RecursiveTimedMutex.heldBy_lock {m m' : RecursiveTimedMutex} {t : ThreadId}
    (h : m.lock t = .done m') (t' : ThreadId) :
    m'.heldBy t' = m.heldBy t' + (if t' = t then 1 else 0) := by
  cases m with
  | unlocked =>
    simp only [RecursiveTimedMutex.lock, Outcome.done.injEq] at h
    subst h
    by_cases htt : t' = t
    · simp [RecursiveTimedMutex.heldBy, RecursiveTimedMutex.owner, RecursiveTimedMutex.count, htt]
    · have : t ≠ t' := fun e => htt e.symm
      simp [RecursiveTimedMutex.heldBy, RecursiveTimedMutex.owner, RecursiveTimedMutex.count, htt,
        this]
  | locked o e =>
    by_cases hot : o = t
    · subst hot
      simp only [RecursiveTimedMutex.lock, if_true, Outcome.done.injEq] at h
      subst h
      by_cases htt : t' = o
      · simp [RecursiveTimedMutex.heldBy, RecursiveTimedMutex.owner, RecursiveTimedMutex.count,
          htt]
      · have : o ≠ t' := fun e => htt e.symm
        simp [RecursiveTimedMutex.heldBy, RecursiveTimedMutex.owner,
          RecursiveTimedMutex.count, htt, this]
    · simp [RecursiveTimedMutex.lock, hot] at h

theorem RecursiveTimedMutex.heldBy_unlock {m m' : RecursiveTimedMutex} {t : ThreadId}
    (h : m.unlock t = .done m') (t' : ThreadId) :
    m.heldBy t' = m'.heldBy t' + (if t' = t then 1 else 0) := by
  cases m with
  | unlocked => simp [RecursiveTimedMutex.unlock] at h
  | locked o e =>
    by_cases hot : o = t
    · subst hot
      cases e with
      | zero =>
        simp only [RecursiveTimedMutex.unlock, if_true, Outcome.done.injEq] at h
        subst h
        by_cases htt : t' = o
        · simp [RecursiveTimedMutex.heldBy, RecursiveTimedMutex.owner,
            RecursiveTimedMutex.count, htt]
        · have : o ≠ t' := fun e => htt e.symm
          simp [RecursiveTimedMutex.heldBy, RecursiveTimedMutex.owner,
            RecursiveTimedMutex.count, htt, this]
      | succ e =>
        simp only [RecursiveTimedMutex.unlock, if_true, Outcome.done.injEq] at h
        subst h
        by_cases htt : t' = o
        · simp [RecursiveTimedMutex.heldBy, RecursiveTimedMutex.owner,
            RecursiveTimedMutex.count, htt]
        · have : o ≠ t' := fun e => htt e.symm
          simp [RecursiveTimedMutex.heldBy, RecursiveTimedMutex.owner,
            RecursiveTimedMutex.count, htt, this]
    · simp [RecursiveTimedMutex.unlock, hot] at h

theorem RecursiveTimedMutex.heldBy_try_lock (m : RecursiveTimedMutex) (t t' : ThreadId) :
    (m.try_lock t).1.heldBy t' =
      m.heldBy t' + (if t' = t ∧ (m.try_lock t).2 = true then 1 else 0) := by
  cases m with
  | unlocked =>
    by_cases htt : t' = t
    · simp [RecursiveTimedMutex.try_lock, RecursiveTimedMutex.heldBy, RecursiveTimedMutex.owner,
        RecursiveTimedMutex.count, htt]
    · have : t ≠ t' := fun e => htt e.symm
      simp [RecursiveTimedMutex.try_lock, RecursiveTimedMutex.heldBy, RecursiveTimedMutex.owner,
        RecursiveTimedMutex.count, htt, this]
  | locked o e =>
    by_cases hot : o = t
    · subst hot
      by_cases htt : t' = o
      · simp [RecursiveTimedMutex.try_lock, RecursiveTimedMutex.heldBy,
          RecursiveTimedMutex.owner, RecursiveTimedMutex.count, htt]
      · have : o ≠ t' := fun e => htt e.symm
        simp [RecursiveTimedMutex.try_lock, RecursiveTimedMutex.heldBy,
          RecursiveTimedMutex.owner, RecursiveTimedMutex.count, htt, this]
    · simp [RecursiveTimedMutex.try_lock, RecursiveTimedMutex.heldBy,
        RecursiveTimedMutex.owner, RecursiveTimedMutex.count, hot]

theorem UniqueLock.holds_owning (m₀ m : MutexId) :
    UniqueLock.holds ⟨some m₀, true⟩ m = decide (m₀ = m) := by
  by_cases h : m₀ = m <;> simp [UniqueLock.holds, h]

theorem UniqueLock.holds_of_not_owning {l : UniqueLock} (h : l.owns = false) (m : MutexId) :
    l.holds m = false := by
  simp [UniqueLock.holds, h]

theorem System.Inv.acquire {σ : System} (hinv : σ.Inv) {t : ThreadId} {m₀ : MutexId}
    {mx : RecursiveTimedMutex} (hl : (σ.mutexes m₀).lock t = .done mx)
    {locks' : ThreadId → List UniqueLock} {handles' : ThreadId → List LockedWallet}
    (hown : ∀ t' m, System.owned ⟨Function.update σ.mutexes m₀ mx, locks', handles'⟩ t' m =
      σ.owned t' m + (if t' = t ∧ m = m₀ then 1 else 0)) :
    System.Inv ⟨Function.update σ.mutexes m₀ mx, locks', handles'⟩ := by
  intro t' m
  rw [hown t' m, hinv t' m]
  by_cases hm : m = m₀
  · subst hm
    simp only [Function.update_same, and_true]
    exact (RecursiveTimedMutex.heldBy_lock hl t').symm
  · simp [Function.update_noteq hm, hm]

theorem System.Inv.release {σ : System} (hinv : σ.Inv) {t : ThreadId} {m₀ : MutexId}
    {mx : RecursiveTimedMutex} (hl : (σ.mutexes m₀).unlock t = .done mx)
    {locks' : ThreadId → List UniqueLock} {handles' : ThreadId → List LockedWallet}
    (hown : ∀ t' m, σ.owned t' m =
      System.owned ⟨Function.update σ.mutexes m₀ mx, locks', handles'⟩ t' m +
        (if t' = t ∧ m = m₀ then 1 else 0)) :
    System.Inv ⟨Function.update σ.mutexes m₀ mx, locks', handles'⟩ := by
  intro t' m
  have h1 := hown t' m
  have h2 := hinv t' m
  by_cases hm : m = m₀
  · subst hm
    have h3 := RecursiveTimedMutex.heldBy_unlock hl t'
    simp only [Function.update_same, and_true] at h1 ⊢
    omega
  · simp only [hm, and_false, if_false, Nat.add_zero] at h1
    simp only [Function.update_noteq hm]
    omega

theorem System.Inv.keep {σ : System} (hinv : σ.Inv)
    {locks' : ThreadId → List UniqueLock} {handles' : ThreadId → List LockedWallet}
    (hown : ∀ t' m, System.owned ⟨σ.mutexes, locks', handles'⟩ t' m = σ.owned t' m) :
    System.Inv ⟨σ.mutexes, locks', handles'⟩ := by
  intro t' m
  rw [hown t' m, hinv t' m]

theorem UniqueLock.destroy_done {s s' : Mutexes} {t : ThreadId} {l : UniqueLock}
    (hd : l.destroy s t = .done s') :
    (l.owns = false ∧ s' = s) ∨
      ∃ m₀ mx, l = ⟨some m₀, true⟩ ∧ (s m₀).unlock t = .done mx ∧
        s' = Function.update s m₀ mx := by
  obtain ⟨pm, owns⟩ := l
  cases owns with
  | false =>
    left
    simp only [UniqueLock.destroy, Bool.false_eq_true, if_false, Outcome.done.injEq] at hd
    exact ⟨rfl, hd.symm⟩
  | true =>
    right
    cases pm with
    | none => simp [UniqueLock.destroy] at hd
    | some m₀ =>
      simp only [UniqueLock.destroy, if_true] at hd
      obtain ⟨mx, h1, h2⟩ := Outcome.bind_eq_done hd
      simp only [Outcome.done.injEq] at h2
      exact ⟨m₀, mx, rfl, h1, h2.symm⟩

theorem RecursiveTimedMutex.try_lock_spec (m : RecursiveTimedMutex) (t : ThreadId) :
    ((m.try_lock t).2 = true ∧ m.lock t = .done (m.try_lock t).1) ∨
      ((m.try_lock t).2 = false ∧ (m.try_lock t).1 = m) := by
  cases m with
  | unlocked => left; exact ⟨rfl, rfl⟩
  | locked o e =>
    by_cases hot : o = t
    · left; simp [RecursiveTimedMutex.try_lock, RecursiveTimedMutex.lock, hot]
    · right; simp [RecursiveTimedMutex.try_lock, hot]

theorem System.Inv.preserved {W : WalletImpl} {σ σ' : System} (hs : Step W σ σ') (hinv : σ.Inv) :
    σ'.Inv := by
  cases hs with
  | wallet t s' h hd =>
    obtain ⟨mx, hm, hs', hh⟩ := LockedWallet.ofMutex_done hd
    subst hs' hh
    refine hinv.acquire hm ?_
    intro t' m
    by_cases ht : t' = t
    · subst ht
      by_cases hm' : W.m_refreshMutex2 = m
      · subst hm'
        simp [System.owned, UniqueLock.holds_owning]; omega
      · have : ¬ m = W.m_refreshMutex2 := fun e => hm' e.symm
        simp [System.owned, UniqueLock.holds_owning, hm', this]
    · simp [System.owned, Function.update_noteq ht, ht]
  | lockCtor t m₀ s' l hd =>
    obtain ⟨mx, hm, hs', hl⟩ := UniqueLock.lockingCtor_done hd
    subst hs' hl
    refine hinv.acquire hm ?_
    intro t' m
    by_cases ht : t' = t
    · subst ht
      by_cases hm' : m₀ = m
      · subst hm'
        simp [System.owned, UniqueLock.holds_owning]; omega
      · have : ¬ m = m₀ := fun e => hm' e.symm
        simp [System.owned, UniqueLock.holds_owning, hm', this]
    · simp [System.owned, Function.update_noteq ht, ht]
  | deferCtor t m₀ =>
    refine hinv.keep ?_
    intro t' m
    by_cases ht : t' = t
    · subst ht
      simp [System.owned, UniqueLock.deferred, UniqueLock.holds]
    · simp [System.owned, Function.update_noteq ht]
  | tryCtor t m₀ =>
    simp only [UniqueLock.tryToLock]
    rcases RecursiveTimedMutex.try_lock_spec (σ.mutexes m₀) t with ⟨hb, hl⟩ | ⟨hb, hl⟩
    · rw [hb]
      refine hinv.acquire hl ?_
      intro t' m
      by_cases ht : t' = t
      · subst ht
        by_cases hm' : m₀ = m
        · subst hm'
          simp [System.owned, UniqueLock.holds_owning]; omega
        · have : ¬ m = m₀ := fun e => hm' e.symm
          simp [System.owned, UniqueLock.holds_owning, hm', this]
      · simp [System.owned, Function.update_noteq ht, ht]
    · rw [hb, hl, Function.update_eq_self]
      refine hinv.keep ?_
      intro t' m
      by_cases ht : t' = t
      · subst ht
        simp [System.owned, UniqueLock.holds]
      · simp [System.owned, Function.update_noteq ht]
  | wrap t w pre post l s' h hl hd =>
    cases ho : l.owns with
    | true =>
      rw [LockedWallet.ofLock_owning ho] at hd
      simp only [Outcome.done.injEq, Prod.mk.injEq] at hd
      obtain ⟨hs', hh⟩ := hd
      subst hs' hh
      refine hinv.keep ?_
      intro t' m
      by_cases ht : t' = t
      · subst ht
        simp only [System.owned, Function.update_same, hl, UniqueLock.move,
          List.countP_append, List.countP_cons]
        simp [UniqueLock.holds]
        omega
      · simp [System.owned, Function.update_noteq ht]
    | false =>
      obtain ⟨m₀, mx, hp, hm, hs', hh⟩ := LockedWallet.ofLock_not_owning_done ho hd
      subst hs' hh
      refine hinv.acquire hm ?_
      intro t' m
      by_cases ht : t' = t
      · subst ht
        have hlm : l.holds m = false := UniqueLock.holds_of_not_owning ho m
        by_cases hm' : m₀ = m
        · subst hm'
          simp [System.owned, hl, UniqueLock.move, List.countP_append, List.countP_cons,
            UniqueLock.holds_owning, hlm, UniqueLock.holds, ho]
          omega
        · have : ¬ m = m₀ := fun e => hm' e.symm
          simp [System.owned, hl, UniqueLock.move, List.countP_append, List.countP_cons,
            UniqueLock.holds_owning, hlm, UniqueLock.holds, hm', this, ho]
      · simp [System.owned, Function.update_noteq ht, ht]
  | dropLock t pre post l s' hl hd =>
    rcases UniqueLock.destroy_done hd with ⟨ho, hs'⟩ | ⟨m₀, mx, hl', hu, hs'⟩
    · subst hs'
      refine hinv.keep ?_
      intro t' m
      by_cases ht : t' = t
      · subst ht
        have hlm : l.holds m = false := UniqueLock.holds_of_not_owning ho m
        simp [System.owned, hl, List.countP_append, List.countP_cons, hlm]
      · simp [System.owned, Function.update_noteq ht]
    · subst hs' hl'
      refine hinv.release hu ?_
      intro t' m
      by_cases ht : t' = t
      · subst ht
        by_cases hm' : m₀ = m
        · subst hm'
          simp [System.owned, hl, List.countP_append, List.countP_cons,
            UniqueLock.holds_owning]
          omega
        · have : ¬ m = m₀ := fun e => hm' e.symm
          simp [System.owned, hl, List.countP_append, List.countP_cons,
            UniqueLock.holds_owning, hm', this]
      · simp [System.owned, Function.update_noteq ht, ht]
  | dropHandle t pre post h s' hl hd =>
    rcases UniqueLock.destroy_done hd with ⟨ho, hs'⟩ | ⟨m₀, mx, hl', hu, hs'⟩
    · subst hs'
      refine hinv.keep ?_
      intro t' m
      by_cases ht : t' = t
      · subst ht
        have hlm : h.refresh_lock.holds m = false := UniqueLock.holds_of_not_owning ho m
        simp [System.owned, hl, List.countP_append, List.countP_cons, hlm]
      · simp [System.owned, Function.update_noteq ht]
    · subst hs'
      refine hinv.release hu ?_
      intro t' m
      by_cases ht : t' = t
      · subst ht
        by_cases hm' : m₀ = m
        · subst hm'
          simp [System.owned, hl, List.countP_append, List.countP_cons, hl',
            UniqueLock.holds_owning]
          omega
        · have : ¬ m = m₀ := fun e => hm' e.symm
          simp [System.owned, hl, List.countP_append, List.countP_cons, hl',
            UniqueLock.holds_owning, hm', this]
      · simp [System.owned, Function.update_noteq ht, ht]

theorem System.HandlesOwn.kept {W : WalletImpl} {σ σ' : System} (hs : Step W σ σ')
    (hinv : σ.HandlesOwn) : σ'.HandlesOwn := by
  cases hs with
  | wallet t s' h hd =>
    intro t' h' hmem
    by_cases ht : t' = t
    · subst ht
      simp only [Function.update_same, List.mem_cons] at hmem
      rcases hmem with rfl | hmem
      · exact (LockedWallet.ofMutex_post hd).1
      · exact hinv _ _ hmem
    · simp only [Function.update_noteq ht] at hmem
      exact hinv _ _ hmem
  | lockCtor t m₀ s' l hd => exact hinv
  | deferCtor t m₀ => exact hinv
  | tryCtor t m₀ => exact hinv
  | wrap t w pre post l s' h hl hd =>
    intro t' h' hmem
    by_cases ht : t' = t
    · subst ht
      simp only [Function.update_same, List.mem_cons] at hmem
      rcases hmem with rfl | hmem
      · cases ho : l.owns with
        | true =>
          rw [LockedWallet.ofLock_owning ho] at hd
          simp only [Outcome.done.injEq, Prod.mk.injEq] at hd
          rw [← hd.2]; exact ho
        | false =>
          obtain ⟨m₀, mx, -, -, -, hh⟩ := LockedWallet.ofLock_not_owning_done ho hd
          rw [hh]
      · exact hinv _ _ hmem
    · simp only [Function.update_noteq ht] at hmem
      exact hinv _ _ hmem
  | dropLock t pre post l s' hl hd => exact hinv
  | dropHandle t pre post h s' hl hd =>
    intro t' h' hmem
    by_cases ht : t' = t
    · subst ht
      simp only [Function.update_same, List.mem_append] at hmem
      apply hinv t'
      rw [hl]
      simp only [List.mem_append, List.mem_cons]
      tauto
    · simp only [Function.update_noteq ht] at hmem
      exact hinv _ _ hmem

theorem Reachable.inv {W : WalletImpl} {σ : System} (hr : Reachable W σ) :
    σ.Inv ∧ σ.HandlesOwn := by
  induction hr with
  | init =>
    refine ⟨?_, ?_⟩
    · intro t m
      simp [System.owned, System.init, RecursiveTimedMutex.heldBy, RecursiveTimedMutex.owner]
    · intro t h hmem
      simp [System.init] at hmem
  | step σ σ' _ hs ih => exact ⟨ih.1.preserved hs, ih.2.kept hs⟩

theorem System.Inv.owner_of_handle {σ : System} (hinv : σ.Inv) (hown : σ.HandlesOwn)
    {t : ThreadId} {h : LockedWallet} {m : MutexId} (hmem : h ∈ σ.handles t)
    (hpm : h.refresh_lock.pm = some m) : (σ.mutexes m).owner = some t := by
  have hholds : h.refresh_lock.holds m = true := by
    simp [UniqueLock.holds, hown t h hmem, hpm]
  have hpos : 0 < (σ.handles t).countP (fun h => h.refresh_lock.holds m) :=
    List.countP_pos_iff.2 ⟨h, hmem, hholds⟩
  have hinv' := hinv t m
  unfold System.owned at hinv'
  by_contra hne
  simp only [RecursiveTimedMutex.heldBy, hne, if_false] at hinv'
  omega

/-- C5: in every state the threads can reach by calling `wallet()`, building
`unique_lock` objects, wrapping them with the other constructor of
`LockedWallet` and letting objects go out of scope, any two handles on the
refresh mutex of `W` are held by one and the same thread: that thread is the
owner of the mutex, and a `wallet()` call by any other thread waits. -/
theorem Reachable.exclusive_across_callers (W : WalletImpl) (σ : System)
    (hr : Reachable W σ) (t₁ t₂ : ThreadId) (h₁ h₂ : LockedWallet)
    (hh₁ : h₁ ∈ σ.handles t₁) (hh₂ : h₂ ∈ σ.handles t₂)
    (hm₁ : h₁.refresh_lock.pm = some W.m_refreshMutex2)
    (hm₂ : h₂.refresh_lock.pm = some W.m_refreshMutex2) :
    t₁ = t₂ ∧ (σ.mutexes W.m_refreshMutex2).owner = some t₁ ∧
      ∀ t, t ≠ t₁ → W.wallet σ.mutexes t = .blocked := by
  obtain ⟨hinv, hown⟩ := hr.inv
  have o₁ := hinv.owner_of_handle hown hh₁ hm₁
  have o₂ := hinv.owner_of_handle hown hh₂ hm₂
  refine ⟨?_, o₁, ?_⟩
  · rw [o₁] at o₂
    exact Option.some.inj o₂
  · intro t hne
    have hb : (σ.mutexes W.m_refreshMutex2).lock t = .blocked :=
      (RecursiveTimedMutex.lock_blocked_iff _ t).2 ⟨t₁, o₁, fun e => hne e.symm⟩
    simp [WalletImpl.wallet, LockedWallet.ofMutex, UniqueLock.ofMutex, hb, Outcome.bind]

/-- Witness for C5: after two nested `wallet()` calls by thread 1 the state
`nested` is reachable, thread 1 holds handles on mutex 7, and every other
thread waits. -/
theorem Reachable.exclusive_across_callers_witness :
    Reachable sampleImpl nested ∧
      (⟨⟨some 7, true⟩, some 64⟩ : LockedWallet) ∈ nested.handles 1 ∧
      (1 = 1 ∧ (nested.mutexes sampleImpl.m_refreshMutex2).owner = some 1 ∧
        ∀ t, t ≠ 1 → sampleImpl.wallet nested.mutexes t = .blocked) :=
  have hr : Reachable sampleImpl nested :=
    Reachable.step _ _
      (Reachable.step _ _ Reachable.init (Step.wallet System.init 1 _ _ rfl))
      (Step.wallet _ 1 _ _ rfl)
  have hmem : (⟨⟨some 7, true⟩, some 64⟩ : LockedWallet) ∈ nested.handles 1 := by
    simp [nested]
  ⟨hr, hmem, Reachable.exclusive_across_callers sampleImpl nested hr 1 1 _ _ hmem hmem rfl rfl⟩

/-! ### The destructors return in every reachable state -/

theorem System.LocksHaveMutex.kept_by_step {W : WalletImpl} {σ σ' : System}
    (hs : Step W σ σ') (hinv : σ.LocksHaveMutex) : σ'.LocksHaveMutex := by
  obtain ⟨hl, hh⟩ := hinv
  cases hs with
  | wallet t s' h hd =>
    refine ⟨hl, ?_⟩
    intro t' h' hmem
    by_cases ht : t' = t
    · subst ht
      simp only [Function.update_same, List.mem_cons] at hmem
      rcases hmem with rfl | hmem
      · rw [(LockedWallet.ofMutex_post hd).2.1]; rfl
      · exact hh _ _ hmem
    · simp only [Function.update_noteq ht] at hmem
      exact hh _ _ hmem
  | lockCtor t m₀ s' l hd =>
    refine ⟨?_, hh⟩
    intro t' l' hmem ho
    by_cases ht : t' = t
    · subst ht
      simp only [Function.update_same, List.mem_cons] at hmem
      rcases hmem with rfl | hmem
      · obtain ⟨mx, -, -, hl'⟩ := UniqueLock.lockingCtor_done hd
        rw [hl']; rfl
      · exact hl _ _ hmem ho
    · simp only [Function.update_noteq ht] at hmem
      exact hl _ _ hmem ho
  | deferCtor t m₀ =>
    refine ⟨?_, hh⟩
    intro t' l' hmem ho
    by_cases ht : t' = t
    · subst ht
      simp only [Function.update_same, List.mem_cons] at hmem
      rcases hmem with rfl | hmem
      · rfl
      · exact hl _ _ hmem ho
    · simp only [Function.update_noteq ht] at hmem
      exact hl _ _ hmem ho
  | tryCtor t m₀ =>
    refine ⟨?_, hh⟩
    intro t' l' hmem ho
    by_cases ht : t' = t
    · subst ht
      simp only [Function.update_same, List.mem_cons, UniqueLock.tryToLock] at hmem
      rcases hmem with rfl | hmem
      · rfl
      · exact hl _ _ hmem ho
    · simp only [Function.update_noteq ht] at hmem
      exact hl _ _ hmem ho
  | wrap t w pre post l s' h hlk hd =>
    have hlmem : l ∈ σ.locks t := by rw [hlk]; simp
    refine ⟨?_, ?_⟩
    · intro t' l' hmem ho
      by_cases ht : t' = t
      · subst ht
        simp only [Function.update_same, List.mem_append, List.mem_cons, UniqueLock.move]
          at hmem
        rcases hmem with hmem | rfl | hmem
        · exact hl t' l' (by rw [hlk]; simp [hmem]) ho
        · simp at ho
        · exact hl t' l' (by rw [hlk]; simp [hmem]) ho
      · simp only [Function.update_noteq ht] at hmem
        exact hl _ _ hmem ho
    · intro t' h' hmem
      by_cases ht : t' = t
      · subst ht
        simp only [Function.update_same, List.mem_cons] at hmem
        rcases hmem with rfl | hmem
        · cases ho : l.owns with
          | true =>
            rw [LockedWallet.ofLock_owning ho] at hd
            simp only [Outcome.done.injEq, Prod.mk.injEq] at hd
            rw [← hd.2]
            exact hl t' l hlmem ho
          | false =>
            obtain ⟨m₀, mx, -, -, -, hh'⟩ := LockedWallet.ofLock_not_owning_done ho hd
            rw [hh']; rfl
        · exact hh _ _ hmem
      · simp only [Function.update_noteq ht] at hmem
        exact hh _ _ hmem
  | dropLock t pre post l s' hlk hd =>
    refine ⟨?_, hh⟩
    intro t' l' hmem ho
    by_cases ht : t' = t
    · subst ht
      simp only [Function.update_same, List.mem_append] at hmem
      refine hl t' l' ?_ ho
      rw [hlk]
      simp only [List.mem_append, List.mem_cons]
      tauto
    · simp only [Function.update_noteq ht] at hmem
      exact hl _ _ hmem ho
  | dropHandle t pre post h s' hlk hd =>
    refine ⟨hl, ?_⟩
    intro t' h' hmem
    by_cases ht : t' = t
    · subst ht
      simp only [Function.update_same, List.mem_append] at hmem
      refine hh t' h' ?_
      rw [hlk]
      simp only [List.mem_append, List.mem_cons]
      tauto
    · simp only [Function.update_noteq ht] at hmem
      exact hh _ _ hmem

theorem Reachable.locksHaveMutex {W : WalletImpl} {σ : System} (hr : Reachable W σ) :
    σ.LocksHaveMutex := by
  induction hr with
  | init =>
    refine ⟨?_, ?_⟩
    · intro t l hmem; simp [System.init] at hmem
    · intro t h hmem; simp [System.init] at hmem
  | step σ σ' _ hs ih => exact ih.kept_by_step hs

theorem RecursiveTimedMutex.unlock_returns {m : RecursiveTimedMutex} {t : ThreadId}
    (h : m.owner = some t) : ∃ m', m.unlock t = .done m' := by
  cases m with
  | unlocked => simp [RecursiveTimedMutex.owner] at h
  | locked o e =>
    have hot : o = t := by simpa [RecursiveTimedMutex.owner] using h
    subst hot
    cases e with
    | zero => exact ⟨.unlocked, by simp [RecursiveTimedMutex.unlock]⟩
    | succ e => exact ⟨.locked o e, by simp [RecursiveTimedMutex.unlock]⟩

theorem System.Inv.owner_of_lock {σ : System} (hinv : σ.Inv)
    {t : ThreadId} {l : UniqueLock} {m : MutexId} (hmem : l ∈ σ.locks t)
    (ho : l.owns = true) (hpm : l.pm = some m) : (σ.mutexes m).owner = some t := by
  have hholds : l.holds m = true := by
    simp [UniqueLock.holds, ho, hpm]
  have hpos : 0 < (σ.locks t).countP (fun l => l.holds m) :=
    List.countP_pos_iff.2 ⟨l, hmem, hholds⟩
  have hinv' := hinv t m
  unfold System.owned at hinv'
  by_contra hne
  simp only [RecursiveTimedMutex.heldBy, hne, if_false] at hinv'
  omega

/-- In every reachable state each object of a thread can go out of scope:
its destructor returns. -/
theorem Reachable.destroy_returns {W : WalletImpl} {σ : System} (hr : Reachable W σ)
    (t : ThreadId) :
    (∀ h, h ∈ σ.handles t → ∃ s', h.destroy σ.mutexes t = .done s') ∧
    (∀ l, l ∈ σ.locks t → ∃ s', l.destroy σ.mutexes t = .done s') := by
  obtain ⟨hinv, hown⟩ := hr.inv
  obtain ⟨hlm, hhm⟩ := hr.locksHaveMutex
  refine ⟨?_, ?_⟩
  · intro h hmem
    have ho := hown t h hmem
    have hp := hhm t h hmem
    obtain ⟨m, hm⟩ := Option.isSome_iff_exists.1 hp
    obtain ⟨m', hu⟩ := RecursiveTimedMutex.unlock_returns
      (hinv.owner_of_handle hown hmem hm)
    exact ⟨Function.update σ.mutexes m m',
      by simp [LockedWallet.destroy, UniqueLock.destroy, ho, hm, hu, Outcome.bind]⟩
  · intro l hmem
    cases ho : l.owns with
    | false => exact ⟨σ.mutexes, by simp [UniqueLock.destroy, ho]⟩
    | true =>
      obtain ⟨m, hm⟩ := Option.isSome_iff_exists.1 (hlm t l hmem ho)
      obtain ⟨m', hu⟩ := RecursiveTimedMutex.unlock_returns (hinv.owner_of_lock hmem ho hm)
      exact ⟨Function.update σ.mutexes m m',
        by simp [UniqueLock.destroy, ho, hm, hu, Outcome.bind]⟩

/-! ### C4: the guard is reentrant for its owner -/

/-- C4: let thread `t` hold a handle `outer` on the refresh mutex, either just
obtained from `wallet()` or held in a state the threads can reach. Then a
further `wallet()` call by `t` returns (it neither waits nor throws), the hold
count of the refresh mutex rises by one, and destroying the inner handle gives
back the state in which `outer` was held: `outer` owns its lock, `t` owns the
mutex, and `outer` can still be released. -/
theorem WalletImpl.wallet_reentrant (W : WalletImpl) (t : ThreadId) (s₁ : Mutexes)
    (outer : LockedWallet)
    (hold : (∃ s₀, W.wallet s₀ t = .done (s₁, outer)) ∨
      ∃ σ, Reachable W σ ∧ σ.mutexes = s₁ ∧ outer ∈ σ.handles t ∧
        outer.refresh_lock.pm = some W.m_refreshMutex2) :
    ∃ s₂ inner, W.wallet s₁ t = .done (s₂, inner) ∧
      (s₂ W.m_refreshMutex2).owner = some t ∧
      (s₂ W.m_refreshMutex2).count = (s₁ W.m_refreshMutex2).count + 1 ∧
      inner.destroy s₂ t = .done s₁ ∧
      outer.refresh_lock = ⟨some W.m_refreshMutex2, true⟩ ∧
      (s₁ W.m_refreshMutex2).owner = some t ∧
      0 < (s₁ W.m_refreshMutex2).count ∧
      ∃ s', outer.destroy s₁ t = .done s' := by
  have key : outer.refresh_lock.owns = true ∧
      outer.refresh_lock.pm = some W.m_refreshMutex2 ∧
      (s₁ W.m_refreshMutex2).owner = some t ∧ ∃ s', outer.destroy s₁ t = .done s' := by
    rcases hold with ⟨s₀, hold⟩ | ⟨σ, hr, hs, hmem, hpm⟩
    · obtain ⟨ho1, ho2, ho3, -, -⟩ := LockedWallet.ofMutex_post hold
      exact ⟨ho1, ho2, ho3, s₀, LockedWallet.destroy_ofMutex hold⟩
    · subst hs
      obtain ⟨hinv, hown⟩ := hr.inv
      exact ⟨hown t outer hmem, hpm, hinv.owner_of_handle hown hmem hpm,
        (hr.destroy_returns t).1 outer hmem⟩
  obtain ⟨ho1, ho2, ho3, hdes⟩ := key
  obtain ⟨s₂, inner, hin⟩ := @LockedWallet.ofMutex_returns s₁ t W.m_wallet_ptr
    W.m_refreshMutex2 (Or.inr ho3)
  have hc2 := LockedWallet.ofMutex_post hin
  have hpos : 0 < (s₁ W.m_refreshMutex2).count := by
    cases hm : s₁ W.m_refreshMutex2 with
    | unlocked => rw [hm] at ho3; simp [RecursiveTimedMutex.owner] at ho3
    | locked o e => simp [RecursiveTimedMutex.count]
  refine ⟨s₂, inner, hin, hc2.2.2.1, hc2.2.2.2.1, LockedWallet.destroy_ofMutex hin, ?_, ho3,
    hpos, hdes⟩
  cases hrl : outer.refresh_lock with
  | mk pm owns =>
    rw [hrl] at ho1 ho2
    simp only at ho1 ho2
    rw [ho1, ho2]

/-- Witness for C4: thread 1 takes the guard of `sampleImpl` on a store with no
mutex owned, then takes it again; and in the reachable state `nested` it can
take it a third time. -/
theorem WalletImpl.wallet_reentrant_witness :
    WalletImpl.wallet sampleImpl allUnlocked 1 =
        .done (Function.update allUnlocked 7 (.locked 1 0), ⟨⟨some 7, true⟩, some 64⟩) ∧
      (∃ s₂ inner, WalletImpl.wallet sampleImpl (Function.update allUnlocked 7 (.locked 1 0)) 1 =
          .done (s₂, inner) ∧
        (s₂ sampleImpl.m_refreshMutex2).owner = some 1 ∧
        (s₂ sampleImpl.m_refreshMutex2).count =
          ((Function.update allUnlocked 7 (.locked 1 0) : Mutexes)
            sampleImpl.m_refreshMutex2).count + 1 ∧
        inner.destroy s₂ 1 = .done (Function.update allUnlocked 7 (.locked 1 0)) ∧
        (⟨⟨some 7, true⟩, some 64⟩ : LockedWallet).refresh_lock =
          ⟨some sampleImpl.m_refreshMutex2, true⟩ ∧
        ((Function.update allUnlocked 7 (.locked 1 0) : Mutexes)
          sampleImpl.m_refreshMutex2).owner = some 1 ∧
        0 < ((Function.update allUnlocked 7 (.locked 1 0) : Mutexes)
          sampleImpl.m_refreshMutex2).count ∧
        ∃ s', LockedWallet.destroy (Function.update allUnlocked 7 (.locked 1 0)) 1
          ⟨⟨some 7, true⟩, some 64⟩ = .done s') ∧
      WalletImpl.wallet sampleImpl nested.mutexes 1 =
        .done (Function.update nested.mutexes 7 (.locked 1 2), ⟨⟨some 7, true⟩, some 64⟩) :=
  ⟨rfl,
   WalletImpl.wallet_reentrant sampleImpl 1 _ _ (Or.inl ⟨allUnlocked, rfl⟩),
   rfl⟩

/-! ### C6: sync steps, balance and step granularity -/

theorem WalletState.foldl_applyBlock_cursor (bs : List BlockSummary) (st : WalletState) :
    (bs.foldl WalletState.applyBlock st).cursor = st.cursor + bs.length := by
  induction bs generalizing st with
  | nil => rfl
  | cons b rest ih =>
    simp only [List.foldl_cons, List.length_cons]
    rw [ih]
    simp only [WalletState.applyBlock]
    omega

theorem WalletState.refresh_refresh (chain : List BlockSummary) (m n : Nat) (st : WalletState) :
    (st.refresh chain m).refresh chain n = st.refresh chain (m + n) := by
  unfold WalletState.refresh fetchBlocksOrHashes
  rw [WalletState.foldl_applyBlock_cursor]
  rw [List.take_add, List.foldl_append]
  congr 1
  rw [List.length_take, ← List.drop_drop]
  by_cases h : m ≤ (List.drop st.cursor chain).length
  · rw [Nat.min_eq_left h]
  · have h' : (List.drop st.cursor chain).length ≤ m := by omega
    rw [Nat.min_eq_right h', List.drop_length, List.drop_eq_nil_of_le h']

theorem WalletState.refresh_zero (chain : List BlockSummary) (st : WalletState) :
    st.refresh chain 0 = st := by
  simp [WalletState.refresh, fetchBlocksOrHashes]

theorem WalletState.sync_eq_refresh (chain : List BlockSummary) (pulls : List Nat)
    (st : WalletState) : st.sync chain pulls = st.refresh chain pulls.sum := by
  induction pulls generalizing st with
  | nil => simp [WalletState.sync, WalletState.refresh_zero]
  | cons n rest ih =>
    have := ih (st.refresh chain n)
    simp only [WalletState.sync, List.foldl_cons, List.sum_cons] at this ⊢
    rw [this, WalletState.refresh_refresh]

theorem Received.toOutput_marked (r : Received) (s : Bool) (bs : List BlockSummary) :
    bs.foldl (fun o b => Output.markSpent b.key_images o) (r.toOutput s) =
      r.toOutput (s || bs.any (fun b' => decide (r.key_image ∈ b'.key_images))) := by
  induction bs generalizing s with
  | nil => simp
  | cons b rest ih =>
    simp only [List.foldl_cons, List.any_cons]
    by_cases hk : r.key_image ∈ b.key_images
    · have h1 : Output.markSpent b.key_images (r.toOutput s) = r.toOutput true := by
        simp [Output.markSpent, Received.toOutput, hk]
      rw [h1, ih]
      simp [hk]
    · have h1 : Output.markSpent b.key_images (r.toOutput s) = r.toOutput s := by
        simp [Output.markSpent, Received.toOutput, hk]
      rw [h1, ih]
      simp [hk]

theorem WalletState.foldl_applyBlock_outputs (bs : List BlockSummary) (st : WalletState) :
    (bs.foldl WalletState.applyBlock st).outputs =
      st.outputs.map (fun o => bs.foldl (fun o b => Output.markSpent b.key_images o) o) ++
        trackedOutputs bs := by
  induction bs generalizing st with
  | nil => simp [trackedOutputs]
  | cons b rest ih =>
    simp only [List.foldl_cons]
    rw [ih]
    simp only [WalletState.applyBlock, List.map_append, List.map_map, trackedOutputs,
      List.append_assoc]
    congr 2
    apply List.map_congr_left
    intro r _
    simp only [Function.comp]
    rw [Received.toOutput_marked]
    simp

theorem trackedOutputs_unspent (bs : List BlockSummary) (a : Nat) :
    ((trackedOutputs bs).filter (fun o => !o.spent && o.account == a)).map (fun o => o.amount) =
      ((unspentOutputs bs).filter (fun r => r.account == a)).map (fun r => r.amount) := by
  induction bs with
  | nil => rfl
  | cons b rest ih =>
    simp only [trackedOutputs, unspentOutputs, List.filter_append, List.map_append, ih]
    congr 1
    generalize b.received = rs
    induction rs with
    | nil => rfl
    | cons r rs ihr =>
      simp only [List.map_cons, List.filter_cons]
      by_cases hs : rest.any (fun b' => decide (r.key_image ∈ b'.key_images)) = true
      · simp only [Received.toOutput, hs] at ihr ⊢
        simpa using ihr
      · simp only [Bool.not_eq_true] at hs
        by_cases ha : r.account = a
        · simp only [Received.toOutput, hs] at ihr ⊢
          simp [ha, ihr]
        · simp only [Received.toOutput, hs] at ihr ⊢
          simp [ha, ihr]

/-- C6: for every chain and every sequence of sync steps (pull sizes) applied
in order, the state reached is the state one pull of the total size reaches, so
two sequences of pulls over the same block range end in the same wallet state;
and for a wallet that starts with no block processed, the cursor ends at the
number of blocks pulled and the balance of every account equals the sum of
the amounts of the outputs of that account that the chain, read up to the
final cursor height, leaves unspent. -/
theorem WalletState.sync_balance_granularity (chain : List BlockSummary) (pulls : List Nat) :
    (∀ st : WalletState, st.sync chain pulls = st.refresh chain pulls.sum) ∧
    (∀ (st : WalletState) (pulls₂ : List Nat), pulls₂.sum = pulls.sum →
      st.sync chain pulls₂ = st.sync chain pulls) ∧
    (∀ spend_key view_key accountIndex : Nat,
      ((WalletState.fresh spend_key view_key).sync chain pulls).cursor =
        min pulls.sum chain.length ∧
      ((WalletState.fresh spend_key view_key).sync chain pulls).balance accountIndex =
        (((unspentOutputs
            (chain.take ((WalletState.fresh spend_key view_key).sync chain pulls).cursor)).filter
          (fun r => r.account == accountIndex)).map (fun r => r.amount)).sum) := by
  refine ⟨fun st => WalletState.sync_eq_refresh chain pulls st, ?_, ?_⟩
  · intro st pulls₂ hsum
    rw [WalletState.sync_eq_refresh, WalletState.sync_eq_refresh, hsum]
  · intro sk vk a
    have hc : ((WalletState.fresh sk vk).sync chain pulls).cursor = min pulls.sum chain.length := by
      rw [WalletState.sync_eq_refresh]
      simp [WalletState.refresh, fetchBlocksOrHashes, WalletState.foldl_applyBlock_cursor,
        WalletState.fresh]
    refine ⟨hc, ?_⟩
    rw [hc]
    rw [WalletState.sync_eq_refresh]
    unfold WalletState.balance WalletState.refresh fetchBlocksOrHashes
    rw [WalletState.foldl_applyBlock_outputs]
    simp only [WalletState.fresh, List.drop_zero, List.map_nil, List.nil_append]
    rw [trackedOutputs_unspent]
    congr 4
    rw [List.take_eq_take]
    simp

/-- Witness for C6: on `sampleChain`, pulling the three blocks one by one and
pulling them at once end in the same state; the balance of account 0 is then
5000000 (the output of 300 is spent in the second block) and the balance of
account 1 is 70. -/
theorem WalletState.sync_balance_granularity_witness :
    [1, 1, 1].sum = [3].sum ∧
      (WalletState.fresh 1 2).sync sampleChain [1, 1, 1] =
        (WalletState.fresh 1 2).sync sampleChain [3] ∧
      ((WalletState.fresh 1 2).sync sampleChain [3]).balance 0 = 5000000 ∧
      ((WalletState.fresh 1 2).sync sampleChain [1, 1, 1]).balance 1 = 70 ∧
      ((WalletState.fresh 1 2).sync sampleChain [3]).cursor = 3 ∧
      unspentOutputs (sampleChain.take 3) = [⟨5000000, 0, 0, 11⟩, ⟨70, 1, 0, 13⟩] :=
  ⟨rfl,
   (WalletState.sync_balance_granularity sampleChain [3]).2.1 (WalletState.fresh 1 2) [1, 1, 1]
     rfl,
   by decide, by decide, by decide, by decide⟩

/-! ### C7: reserved outputs are not selected again -/

theorem WalletState.createTransaction_ok {env : BuilderEnv} {st st₁ : WalletState}
    {dst_addr : String} {amount : Option Nat} {priority subaddr_account : Nat}
    {subaddr_indices : List Nat} {p : PendingTransaction}
    (h : st.createTransaction env dst_addr amount priority subaddr_account subaddr_indices =
      .ok (st₁, p)) :
    env.validAddress dst_addr = true ∧ env.daemonAvailable = true ∧
      st₁ = { st with pending := p :: st.pending } ∧
      ∃ sel : List (Nat × Output),
        (∀ x ∈ sel, x ∈ st.eligible subaddr_account subaddr_indices) ∧
        p.inputs = sel.map (fun io => io.1) ∧
        p.amount + p.fee + p.change = (sel.map (fun io => io.2.amount)).sum := by
  unfold WalletState.createTransaction at h
  by_cases hv : env.validAddress dst_addr = true
  case neg => simp [hv] at h
  by_cases hd : env.daemonAvailable = true
  case neg => simp [hv, hd] at h
  simp only [hv, hd, Bool.not_true, Bool.false_eq_true, if_false] at h
  refine ⟨hv, hd, ?_⟩
  cases amount with
  | some a =>
    simp only at h
    cases hsel : env.select (st.eligible subaddr_account subaddr_indices)
        (a + env.estimateTransactionFee priority 1) with
    | none => rw [hsel] at h; simp at h
    | some sel =>
      rw [hsel] at h
      simp only [Except.ok.injEq, Prod.mk.injEq] at h
      obtain ⟨h1, h2⟩ := h
      have hcov := env.select_covers _ _ _ hsel
      refine ⟨?_, sel, fun x hx => (env.select_sublist _ _ _ hsel).subset hx, ?_, ?_⟩
      · rw [← h1, h2]
      · rw [← h2]
      · rw [← h2]
        simp only
        omega
  | none =>
    simp only at h
    by_cases hle : ((st.eligible subaddr_account subaddr_indices).map
        (fun io => io.2.amount)).sum ≤ env.estimateTransactionFee priority 1
    · simp [hle] at h
    · simp only [hle, if_false, Except.ok.injEq, Prod.mk.injEq] at h
      obtain ⟨h1, h2⟩ := h
      refine ⟨?_, st.eligible subaddr_account subaddr_indices, fun x hx => hx, ?_, ?_⟩
      · rw [← h1, h2]
      · rw [← h2]
      · rw [← h2]
        simp only
        omega

theorem WalletState.eligible_spec {st : WalletState} {subaddr_account : Nat}
    {subaddr_indices : List Nat} {x : Nat × Output}
    (h : x ∈ st.eligible subaddr_account subaddr_indices) :
    st.outputs[x.1]? = some x.2 ∧ x.2.spent = false ∧ x.2.account = subaddr_account ∧
      st.reserved x.1 = false := by
  simp only [WalletState.eligible, List.mem_filter, Bool.and_eq_true, Bool.not_eq_true',
    beq_iff_eq] at h
  obtain ⟨hmem, ⟨⟨hs, ha⟩, _⟩, hr⟩ := h
  exact ⟨List.mem_enum_iff_getElem?.1 hmem, hs, ha, hr⟩

theorem WalletState.reserved_eq_false {st : WalletState} {i : Nat} (h : st.reserved i = false) :
    ∀ q ∈ st.pending, i ∉ q.inputs := by
  intro q hq hi
  have : st.reserved i = true := by
    simp only [WalletState.reserved, List.any_eq_true, decide_eq_true_eq]
    exact ⟨q, hq, hi⟩
  rw [h] at this
  exact Bool.noConfusion this

theorem pending_erase_releases {l : List PendingTransaction}
    (hp : l.Pairwise (fun a b => ∀ i ∈ a.inputs, i ∉ b.inputs))
    {q : PendingTransaction} (hq : q ∈ l) {i : Nat} (hi : i ∈ q.inputs) :
    ∀ q' ∈ l.erase q, i ∉ q'.inputs := by
  induction l with
  | nil => simp at hq
  | cons a rest ih =>
    rw [List.pairwise_cons] at hp
    obtain ⟨ha, hrest⟩ := hp
    by_cases haq : a = q
    · subst haq
      intro q' hq'
      rw [List.erase_cons_head] at hq'
      exact ha q' hq' i hi
    · have hq2 : q ∈ rest := by
        rcases List.mem_cons.1 hq with h | h
        · exact absurd h.symm haq
        · exact h
      intro q' hq'
      rw [List.erase_cons_tail (by simpa using haq)] at hq'
      rcases List.mem_cons.1 hq' with h | h
      · subst h
        intro hia
        exact ha q hq2 i hia hi
      · exact ih hrest hq2 q' h

theorem WalletState.mem_eligible {st : WalletState} {i : Nat} {o : Output}
    (ho : st.outputs[i]? = some o) (hs : o.spent = false) (hr : st.reserved i = false) :
    (i, o) ∈ st.eligible o.account [] := by
  simp only [WalletState.eligible, List.mem_filter, Bool.and_eq_true, Bool.not_eq_true',
    beq_iff_eq]
  exact ⟨List.mem_enum_iff_getElem?.2 ho, ⟨⟨hs, trivial⟩, by simp⟩, hr⟩

/-- C7: when `createTransaction` succeeds from a state `st` with a pending
transaction `p`, no input of `p` is an input of a pending transaction of `st`
that has not been disposed (every input is an unspent output of the source
account); in the new state the inputs of `p` are reserved, so no later
`createTransaction` selects any of them; `disposeTransaction` of `p` gives back
the state `st`, from which the same call selects them again. In general, in a
state whose pending transactions reserve disjoint outputs (building and
disposing keep it so), disposing a pending transaction `q` leaves none of its
inputs reserved, and each of them that is unspent is again among the outputs
`createTransaction` selects from. -/
theorem WalletState.createTransaction_respects_reservations (env : BuilderEnv)
    (st : WalletState) :
    (∀ (dst_addr : String) (amount : Option Nat) (priority subaddr_account : Nat)
        (subaddr_indices : List Nat) (st₁ : WalletState) (p : PendingTransaction),
      st.createTransaction env dst_addr amount priority subaddr_account subaddr_indices =
        .ok (st₁, p) →
      (∀ i ∈ p.inputs, ∀ q ∈ st.pending, i ∉ q.inputs) ∧
      (∀ i ∈ p.inputs, ∃ o, st.outputs[i]? = some o ∧ o.spent = false ∧
        o.account = subaddr_account) ∧
      (∀ i ∈ p.inputs, st₁.reserved i = true) ∧
      (∀ (dst_addr' : String) (amount' : Option Nat) (priority' subaddr_account' : Nat)
          (subaddr_indices' : List Nat) (st₂ : WalletState) (p' : PendingTransaction),
        st₁.createTransaction env dst_addr' amount' priority' subaddr_account'
          subaddr_indices' = .ok (st₂, p') → ∀ i ∈ p'.inputs, i ∉ p.inputs) ∧
      st₁.disposeTransaction p = st ∧
      (st₁.disposeTransaction p).createTransaction env dst_addr amount priority
        subaddr_account subaddr_indices = .ok (st₁, p) ∧
      (st.ReservationsDisjoint → st₁.ReservationsDisjoint)) ∧
    (∀ q : PendingTransaction, st.ReservationsDisjoint → q ∈ st.pending →
      (st.disposeTransaction q).ReservationsDisjoint ∧
      ∀ i ∈ q.inputs, (st.disposeTransaction q).reserved i = false ∧
        ∀ o, st.outputs[i]? = some o → o.spent = false →
          (i, o) ∈ (st.disposeTransaction q).eligible o.account []) := by
  refine ⟨?_, ?_⟩
  · intro dst_addr amount priority subaddr_account subaddr_indices st₁ p h
    obtain ⟨-, -, hst, sel, hsel, hin, -⟩ := WalletState.createTransaction_ok h
    have hfree : ∀ i ∈ p.inputs, st.reserved i = false := by
      intro i hi
      rw [hin, List.mem_map] at hi
      obtain ⟨x, hx, rfl⟩ := hi
      exact (WalletState.eligible_spec (hsel x hx)).2.2.2
    have hdisp : st₁.disposeTransaction p = st := by
      rw [hst]
      simp [WalletState.disposeTransaction]
    refine ⟨?_, ?_, ?_, ?_, hdisp, ?_, ?_⟩
    · intro i hi
      exact WalletState.reserved_eq_false (hfree i hi)
    · intro i hi
      rw [hin, List.mem_map] at hi
      obtain ⟨x, hx, rfl⟩ := hi
      obtain ⟨h1, h2, h3, -⟩ := WalletState.eligible_spec (hsel x hx)
      exact ⟨x.2, h1, h2, h3⟩
    · intro i hi
      rw [hst]
      simp [WalletState.reserved, hi]
    · intro dst_addr' amount' priority' subaddr_account' subaddr_indices' st₂ p' h' i hi hip
      obtain ⟨-, -, -, sel', hsel', hin', -⟩ := WalletState.createTransaction_ok h'
      rw [hin', List.mem_map] at hi
      obtain ⟨x, hx, rfl⟩ := hi
      have hr := (WalletState.eligible_spec (hsel' x hx)).2.2.2
      refine WalletState.reserved_eq_false hr p ?_ hip
      rw [hst]
      simp
    · rw [hdisp]
      exact h
    · intro hd
      rw [hst]
      unfold WalletState.ReservationsDisjoint at hd ⊢
      simp only [List.pairwise_cons]
      exact ⟨fun q hq i hi => WalletState.reserved_eq_false (hfree i hi) q hq, hd⟩
  · intro q hd hq
    have hd' : (st.disposeTransaction q).ReservationsDisjoint :=
      List.Pairwise.sublist (List.erase_sublist q st.pending) hd
    refine ⟨hd', ?_⟩
    intro i hi
    have hr : (st.disposeTransaction q).reserved i = false := by
      cases hres : (st.disposeTransaction q).reserved i with
      | false => rfl
      | true =>
        simp only [WalletState.reserved, WalletState.disposeTransaction, List.any_eq_true,
          decide_eq_true_eq] at hres
        obtain ⟨q', hq', hi'⟩ := hres
        exact absurd hi' (pending_erase_releases hd hq hi q' hq')
    refine ⟨hr, ?_⟩
    intro o ho hs
    exact @WalletState.mem_eligible (st.disposeTransaction q) i o ho hs hr

/-- Witness for C7, the scenario of §8: from `sampleWallet`, building a
transfer of 1000000 at priority 1 selects output 0 with change 3999000; while
it is pending a second build finds no funds; disposing it gives back
`sampleWallet`, from which a sweep of the full balance succeeds. -/
theorem WalletState.createTransaction_respects_reservations_witness :
    sampleWallet.createTransaction sampleEnv "dest" (some 1000000) 1 0 [] =
        .ok ({ sampleWallet with pending := [⟨[0], 1000000, 1000, 3999000, 1⟩] },
          ⟨[0], 1000000, 1000, 3999000, 1⟩) ∧
      ({ sampleWallet with pending := [⟨[0], 1000000, 1000, 3999000, 1⟩] } :
        WalletState).createTransaction sampleEnv "dest" (some 1) 1 0 [] =
        .error .InsufficientFunds ∧
      (∀ i ∈ (⟨[0], 1000000, 1000, 3999000, 1⟩ : PendingTransaction).inputs,
        ∀ q ∈ sampleWallet.pending, i ∉ q.inputs) ∧
      WalletState.disposeTransaction
        { sampleWallet with pending := [⟨[0], 1000000, 1000, 3999000, 1⟩] }
        ⟨[0], 1000000, 1000, 3999000, 1⟩ = sampleWallet ∧
      sampleWallet.createTransaction sampleEnv "dest" none 1 0 [] =
        .ok ({ sampleWallet with pending := [⟨[0], 4999000, 1000, 0, 1⟩] },
          ⟨[0], 4999000, 1000, 0, 1⟩) ∧
      sampleWallet.ReservationsDisjoint ∧
      ({ sampleWallet with pending := [⟨[0], 1000000, 1000, 3999000, 1⟩] } :
        WalletState).ReservationsDisjoint :=
  ⟨rfl, rfl,
   ((WalletState.createTransaction_respects_reservations sampleEnv sampleWallet).1 "dest"
      (some 1000000) 1 0 [] _ _ rfl).1,
   ((WalletState.createTransaction_respects_reservations sampleEnv sampleWallet).1 "dest"
      (some 1000000) 1 0 [] _ _ rfl).2.2.2.2.1,
   rfl,
   List.Pairwise.nil,
   ((WalletState.createTransaction_respects_reservations sampleEnv sampleWallet).1 "dest"
      (some 1000000) 1 0 [] _ _ rfl).2.2.2.2.2.2 List.Pairwise.nil⟩

/-! ### C8: importing a key-image blob twice -/

theorem mergeKeyImages_pointwise (entries : List (Nat × Nat)) (k : Nat) :
    (∀ m : Nat → Option Nat, mergeKeyImages m entries k = m k) ∨
    (∃ v, ∀ m : Nat → Option Nat, mergeKeyImages m entries k = some v) := by
  induction entries with
  | nil => left; intro m; rfl
  | cons e rest ih =>
    rcases ih with ih | ⟨v, ih⟩
    · by_cases hk : k = e.1
      · right
        refine ⟨e.2, fun m => ?_⟩
        have := ih (Function.update m e.1 (some e.2))
        simp only [mergeKeyImages, List.foldl_cons] at this ⊢
        rw [this, hk, Function.update_same]
      · left
        intro m
        have := ih (Function.update m e.1 (some e.2))
        simp only [mergeKeyImages, List.foldl_cons] at this ⊢
        rw [this, Function.update_noteq hk]
    · right
      refine ⟨v, fun m => ?_⟩
      have := ih (Function.update m e.1 (some e.2))
      simp only [mergeKeyImages, List.foldl_cons] at this ⊢
      rw [this]

theorem mergeKeyImages_idem (entries : List (Nat × Nat)) (m : Nat → Option Nat) :
    mergeKeyImages (mergeKeyImages m entries) entries = mergeKeyImages m entries := by
  funext k
  rcases mergeKeyImages_pointwise entries k with h | ⟨v, h⟩
  · rw [h]
  · rw [h, h]

theorem WalletState.importKeyImages_valid {S : SigningPrimitives} {st : WalletState}
    {blob : KeyImageBlob}
    (hv : S.verify (S.public_key st.view_key) (.keyImages blob.entries) blob.signature = true) :
    st.importKeyImages S blob =
      ({ st with key_images := mergeKeyImages st.key_images blob.entries }, none) := by
  simp only [WalletState.importKeyImages, hv, if_true]

theorem WalletState.importKeyImages_invalid {S : SigningPrimitives} {st : WalletState}
    {blob : KeyImageBlob}
    (hv : S.verify (S.public_key st.view_key) (.keyImages blob.entries) blob.signature = false) :
    st.importKeyImages S blob = (st, some .InvalidSignature) := by
  simp only [WalletState.importKeyImages, hv, Bool.false_eq_true, if_false]

/-- C8: for every key-image blob and every wallet state, importing the blob
into the state a first import leaves gives that same state again, with the
same result (accepted, or rejected with `InvalidSignature`): the second import
changes nothing. -/
theorem WalletState.importKeyImages_idempotent (S : SigningPrimitives) (st : WalletState)
    (blob : KeyImageBlob) :
    (st.importKeyImages S blob).1.importKeyImages S blob = st.importKeyImages S blob := by
  cases hv : S.verify (S.public_key st.view_key) (.keyImages blob.entries) blob.signature with
  | true =>
    rw [WalletState.importKeyImages_valid hv]
    rw [@WalletState.importKeyImages_valid S
      { st with key_images := mergeKeyImages st.key_images blob.entries } blob hv]
    simp only [mergeKeyImages_idem]
  | false =>
    rw [WalletState.importKeyImages_invalid hv]
    exact WalletState.importKeyImages_invalid hv

/-- The import on `sampleWallet`: a blob with a forged signature is rejected
and changes nothing; the blob the wallet exports is accepted and records its
entry. -/
theorem WalletState.importKeyImages_examples :
    sampleWallet.importKeyImages sampleScheme ⟨[(11, 0)], "forged"⟩ =
        (sampleWallet, some .InvalidSignature) ∧
      (sampleWallet.importKeyImages sampleScheme
        (sampleWallet.exportKeyImages sampleScheme [(11, 0)])).2 = none ∧
      (sampleWallet.importKeyImages sampleScheme
        (sampleWallet.exportKeyImages sampleScheme [(11, 0)])).1.key_images 11 = some 0 ∧
      ((sampleWallet.importKeyImages sampleScheme
        (sampleWallet.exportKeyImages sampleScheme [(11, 0)])).1.importKeyImages sampleScheme
        (sampleWallet.exportKeyImages sampleScheme [(11, 0)])).1.key_images 11 = some 0 :=
  ⟨rfl, rfl, rfl, rfl⟩

/-! ### C9: proofs verify -/

/-- C9: for every wallet state and all arguments, the proof `getTxProof`
returns is reported good by `checkTxProof`, the proof `getSpendProof` returns
by `checkSpendProof`, and every proof `getReserveProof` produces by
`checkReserveProof`, when the check is given the same transaction, address and
message and the public key of the wallet that made the proof. -/
theorem WalletState.proof_round_trip (S : SigningPrimitives) (st : WalletState) :
    (∀ txid address message : String,
      checkTxProof S (S.public_key st.spend_key) txid address message
        (st.getTxProof S txid address message) = true) ∧
    (∀ txid message : String,
      checkSpendProof S (S.public_key st.spend_key) txid message
        (st.getSpendProof S txid message) = true) ∧
    (∀ (all : Bool) (account_index amount : Nat) (message : String) (proof : ReserveProof),
      st.getReserveProof S all account_index amount message = .ok proof →
      ∀ is_spent : Nat → Bool,
        (checkReserveProof S is_spent (S.public_key st.spend_key) message proof).good = true) := by
  refine ⟨?_, ?_, ?_⟩
  · intro txid address message
    exact S.verify_sign _ _
  · intro txid message
    exact S.verify_sign _ _
  · intro all account_index amount message proof h is_spent
    unfold WalletState.getReserveProof at h
    simp only at h
    split at h
    · exact Except.noConfusion h
    · simp only [Except.ok.injEq] at h
      rw [← h]
      exact S.verify_sign _ _

/-- Witness for C9: `sampleWallet` proves a reserve of 4000000 on account 0
and the check reports the proof good; with `sampleScheme` a spend proof checks
for its own message and not for another one. -/
theorem WalletState.proof_round_trip_witness :
    sampleWallet.getReserveProof sampleScheme false 0 4000000 "audit" =
        .ok ⟨[⟨5000000, 0, 0, 11, false⟩],
          sampleScheme.sign 1 (.reserveProof [⟨5000000, 0, 0, 11, false⟩] "audit")⟩ ∧
      (checkReserveProof sampleScheme (fun _ => false) (sampleScheme.public_key 1) "audit"
        ⟨[⟨5000000, 0, 0, 11, false⟩],
          sampleScheme.sign 1 (.reserveProof [⟨5000000, 0, 0, 11, false⟩] "audit")⟩).good =
        true ∧
      sampleWallet.getReserveProof sampleScheme false 0 6000000 "audit" =
        .error .InsufficientFunds ∧
      checkSpendProof sampleScheme 3 "txid" "audit" "3|spend txid audit" = true ∧
      checkSpendProof sampleScheme 3 "txid" "audit" "3|spend txid other" = false :=
  ⟨rfl,
   (WalletState.proof_round_trip sampleScheme sampleWallet).2.2 false 0 4000000 "audit" _ rfl
     (fun _ => false),
   rfl, by decide, by decide⟩

end Wallet

namespace contract

/-! ### C11: the enumerators of `contract_type` -/

/-- C11: the enumerators of `contract_type` are numbered consecutively from
zero (`create` 0, `public_method` 1, `signed_method` 2, `terminate` 3) and the
sentinel `_count` is 4; the five are pairwise distinct and fit the underlying
type; `_count` is the number of real contract types; and a 16-bit value is one
of the real contract types exactly when it is less than `_count`. -/
theorem contract_type.enumerators_consecutive :
    contract_type.create = 0 ∧ contract_type.public_method = 1 ∧
    contract_type.signed_method = 2 ∧ contract_type.terminate = 3 ∧
    contract_type._count = 4 ∧
    (contract_type.enumerators ++ [contract_type._count]).Nodup ∧
    (∀ c ∈ contract_type.enumerators ++ [contract_type._count],
      contract_type.fits c = true) ∧
    contract_type._count = contract_type.enumerators.length ∧
    ∀ v : Nat, contract_type.fits v = true →
      (v ∈ contract_type.enumerators ↔ v < contract_type._count) := by
  refine ⟨rfl, rfl, rfl, rfl, rfl, by decide, by decide, rfl, ?_⟩
  intro v _
  simp only [contract_type.enumerators, contract_type.create, contract_type.public_method,
    contract_type.signed_method, contract_type.terminate, contract_type._count,
    List.mem_cons, List.mem_singleton, List.not_mem_nil, or_false]
  omega

/-- Witness for C11: the 16-bit values 3 and 4: `terminate` is a real contract
type, the sentinel is not, and neither is the largest 16-bit value. -/
theorem contract_type.enumerators_consecutive_witness :
    contract_type.fits 3 = true ∧ (3 ∈ contract_type.enumerators ↔ 3 < contract_type._count) ∧
      3 ∈ contract_type.enumerators ∧
      contract_type.fits 4 = true ∧ (4 ∈ contract_type.enumerators ↔ 4 < contract_type._count) ∧
      4 ∉ contract_type.enumerators ∧
      contract_type.fits 65535 = true ∧
      (65535 ∈ contract_type.enumerators ↔ 65535 < contract_type._count) ∧
      contract_type.fits 65536 = false :=
  ⟨by decide, contract_type.enumerators_consecutive.2.2.2.2.2.2.2.2 3 (by decide),
   by decide,
   by decide, contract_type.enumerators_consecutive.2.2.2.2.2.2.2.2 4 (by decide),
   by decide,
   by decide, contract_type.enumerators_consecutive.2.2.2.2.2.2.2.2 65535 (by decide),
   by decide⟩

end contract
